import Mathlib

/-!
Verification of the folder-to-sample-chain repository.

This file gives a shallow embedding, in Lean 4, of the core of the
folder-to-sample-chain program (audio format conversion, sample-chain
assembly, smart chain planning, export filename generation) and proves or
refutes a fixed list of claims about it.

Modelling conventions:
* Audio buffers are rectangular arrays of shape (frames, channels); we embed
  them as lists of frames, each frame being a list of per-channel sample
  values in the rational numbers (the Python code computes with IEEE floats;
  the claims settled here concern shapes, counts, orderings and exact
  buffer-identity questions, none of which depend on float rounding, so the
  arithmetic is idealized over the rationals).
* Python strings are embedded as lists of characters, because the relevant
  string operations (lower-casing, splitting on separator runs, substring
  tests) are implemented character by character in this file.
* A filesystem path is embedded as its list of components (pathlib parts).
* External effects (decoding an audio file from disk, the random dither
  draw of numpy, the scipy resampling kernel) enter as explicit oracle
  parameters; the surrounding control flow and all shape computations are
  translated from the source directly.
-/

/-!
The kernel computations of the concrete theorems below evaluate rational
arithmetic; the basic Rat operations are irreducible by default and are
reopened here for definitional reduction.
-/
unseal Rat.mul Rat.add Rat.sub Rat.inv

/-- Decidable equality of Except values with decidable components (used to
settle concrete evaluations of the fallible converters by decide). -/
instance {α β : Type} [DecidableEq α] [DecidableEq β] : DecidableEq (Except α β) :=
  fun x y =>
    match x, y with
    | .ok a, .ok b =>
      if h : a = b then isTrue (by rw [h]) else isFalse (fun hc => h (Except.ok.inj hc))
    | .error a, .error b =>
      if h : a = b then isTrue (by rw [h]) else isFalse (fun hc => h (Except.error.inj hc))
    | .ok _, .error _ => isFalse (fun hc => Except.noConfusion hc)
    | .error _, .ok _ => isFalse (fun hc => Except.noConfusion hc)

/-! ## Character-list string utilities -/

/-- Strings of the embedded program are lists of characters. -/
abbrev Str := List Char

/-- ASCII lower-casing of one character, as Python str.lower acts on the
ASCII letters appearing in the repository's file names. -/
def lowerChar (c : Char) : Char :=
  if c = 'A' then 'a' else if c = 'B' then 'b' else if c = 'C' then 'c'
  else if c = 'D' then 'd' else if c = 'E' then 'e' else if c = 'F' then 'f'
  else if c = 'G' then 'g' else if c = 'H' then 'h' else if c = 'I' then 'i'
  else if c = 'J' then 'j' else if c = 'K' then 'k' else if c = 'L' then 'l'
  else if c = 'M' then 'm' else if c = 'N' then 'n' else if c = 'O' then 'o'
  else if c = 'P' then 'p' else if c = 'Q' then 'q' else if c = 'R' then 'r'
  else if c = 'S' then 's' else if c = 'T' then 't' else if c = 'U' then 'u'
  else if c = 'V' then 'v' else if c = 'W' then 'w' else if c = 'X' then 'x'
  else if c = 'Y' then 'y' else if c = 'Z' then 'z' else c

/-- Lower-casing of an embedded string (Python str.lower). -/
def lowerStr (s : Str) : Str := s.map lowerChar

/-- Test whether the first list is an initial segment of the second
(helper for the substring test below). -/
def startsWith : Str → Str → Bool
  | [], _ => true
  | _ :: _, [] => false
  | a :: as, b :: bs => a = b && startsWith as bs

/-- Python's substring containment test (the in operator on str):
containsSub needle hay is true when needle occurs contiguously in hay. -/
def containsSub (needle : Str) : Str → Bool
  | [] => startsWith needle []
  | c :: rest => startsWith needle (c :: rest) || containsSub needle rest

/-- Code-point comparison of characters (Python compares strings by code
point). -/
def charLt (a b : Char) : Bool := a.toNat < b.toNat

/-- Lexicographic code-point comparison of embedded strings, the order
Python's sorted uses on str keys. -/
def strLt : Str → Str → Bool
  | [], [] => false
  | [], _ :: _ => true
  | _ :: _, [] => false
  | a :: as, b :: bs => charLt a b || (a = b && strLt as bs)

/-! ## Power-of-two helpers (src/audio_processing/audio_processor.py)

AudioProcessor.is_power_of_two and AudioProcessor.get_next_power_of_two,
lines 212-241.  Python ints are embedded as Lean integers. -/

/-- AudioProcessor.is_power_of_two: n > 0 and (n & (n - 1)) == 0. -/
def is_power_of_two (n : ℤ) : Bool :=
  decide (0 < n) && (Int.land n (n - 1) == 0)

/-- Loop body of AudioProcessor.get_next_power_of_two: power = 1, then
double power while power < n.  The positivity argument records that the
loop is only entered with power = 1 (and doubling preserves positivity),
which is what makes the Python loop terminate. -/
def nextPowLoop (n : ℕ) (power : ℕ) (hp : 0 < power) : ℕ :=
  if h : power < n then nextPowLoop n (2 * power) (by omega) else power
  termination_by n - power
  decreasing_by omega

unseal nextPowLoop

/-- AudioProcessor.get_next_power_of_two on natural inputs (the builder
calls it on a list length): for n = 0 the loop is never entered and 1 is
returned, matching the n <= 0 guard of the source. -/
def nextPow2 (n : ℕ) : ℕ := nextPowLoop n 1 (by omega)

/-- AudioProcessor.get_next_power_of_two: if n <= 0 return 1, else double
power from 1 until it reaches n. -/
def get_next_power_of_two (n : ℤ) : ℤ :=
  if n ≤ 0 then 1 else (nextPow2 n.toNat : ℤ)

/-! ## Audio buffers -/

/-- An audio buffer of shape (frames, channels): the list of frames, each
frame holding one rational sample value per channel.  The loader of the
source always hands 2-D arrays to the pipeline (mono files are reshaped to
one column), so the embedding works with the 2-D representation
throughout. -/
abbrev AudioData := List (List ℚ)

/-- Channel count of a buffer (numpy shape[1] of the rectangular array). -/
def numChannels (d : AudioData) : ℕ := (d.head?.getD []).length

/-- Column ch of a buffer (the per-channel signal handed to the
resampler). -/
def column (d : AudioData) (ch : ℕ) : List ℚ := d.map (fun row => row.getD ch 0)

/-- Decimal digit characters. -/
def digitChar (d : ℕ) : Char :=
  if d = 0 then '0' else if d = 1 then '1' else if d = 2 then '2'
  else if d = 3 then '3' else if d = 4 then '4' else if d = 5 then '5'
  else if d = 6 then '6' else if d = 7 then '7' else if d = 8 then '8' else '9'

/-- Decimal rendering of a natural number, with explicit fuel (the fuel
handed by natToStr always suffices). -/
def natToStrAux : ℕ → ℕ → Str
  | 0, _ => []
  | fuel + 1, n =>
    if n < 10 then [digitChar n]
    else natToStrAux fuel (n / 10) ++ [digitChar (n % 10)]

/-- Decimal rendering of a natural number (Python str on a nonnegative
int). -/
def natToStr (n : ℕ) : Str := natToStrAux (n + 1) n

/-- Clipping to the unit interval, numpy np.clip(x, -1.0, 1.0). -/
def clip (v : ℚ) : ℚ := min 1 (max (-1) v)

/-- Conversion of a rational to an integer by truncation toward zero, the
behaviour of numpy astype on integer targets and of Python int(). -/
def truncQ (q : ℚ) : ℤ := if 0 ≤ q then q.floor else q.ceil

/-! ## AudioConverter (src/audio_processing/audio_converter.py) -/

/-- AudioConverter.convert_sample_rate, lines 34-86.  The numeric
resampling kernel (scipy.signal.resample, or the numpy linear
interpolation fallback) is a float-valued DSP primitive and enters as the
oracle resampleFn, where resampleFn newLen col i is sample i of the
resampled channel col; the source writes each resampled channel into a
preallocated zero array of shape (new_length, channels), so the output
shape is forced by the surrounding code, which is embedded exactly: the
new length is int(len * target_rate / current_rate), i.e. truncation
(floor for these nonnegative quantities), not rounding. -/
def convert_sample_rate (resampleFn : ℕ → List ℚ → ℕ → ℚ)
    (audio_data : AudioData) (current_rate target_rate : ℕ) : AudioData :=
  if current_rate == target_rate then audio_data
  else
    let new_length := audio_data.length * target_rate / current_rate
    let channels := numChannels audio_data
    (List.range new_length).map (fun i =>
      (List.range channels).map (fun ch => resampleFn new_length (column audio_data ch) i))

/-- Mean of one frame across its channels (np.mean(..., axis=1) applied to
one row of the rectangular array). -/
def rowMean (row : List ℚ) : ℚ := row.sum / (row.length : ℚ)

/-- AudioConverter.convert_channels, lines 138-174, on the 2-D buffers the
pipeline produces (the loader reshapes mono input to one column). -/
def convert_channels (audio_data : AudioData) (current_channels target_channels : ℕ) :
    Except Str AudioData :=
  if current_channels == target_channels then .ok audio_data
  else if target_channels == 1 then
    if current_channels == 2 then
      .ok (audio_data.map (fun row => [rowMean row]))
    else
      .ok (audio_data.map (fun row => row.take 1))
  else if target_channels == 2 then
    if current_channels == 1 then
      .ok (audio_data.map (fun row => [row.getD 0 0, row.getD 0 0]))
    else
      .ok (audio_data.map (fun row => row.take 2))
  else
    .error (("Unsupported target channel count: ".toList) ++ natToStr target_channels)

/-- AudioConverter.convert_bit_depth, lines 88-136, for the float-typed
buffers the chain pipeline feeds it (soundfile decodes to float64 and
every intermediate step keeps float arrays, so the normalization step is
the float passthrough branch).  The triangular random dither draw of
numpy enters as the oracle noise, giving the realized draw at frame i,
channel j, each value in the open interval (-1, 1). -/
def convert_bit_depth (noise : ℕ → ℕ → ℚ) (dithering : Bool)
    (audio_data : AudioData) (current_bits target_bits : ℕ) : Except Str AudioData :=
  if current_bits == target_bits then .ok audio_data
  else
    let normalized := audio_data
    let dithered :=
      if dithering && decide (target_bits < current_bits) then
        normalized.mapIdx (fun i row =>
          row.mapIdx (fun j v => v + noise i j * (1 / (2 : ℚ) ^ target_bits)))
      else normalized
    if target_bits == 16 then
      .ok (dithered.map (fun row => row.map (fun v => (truncQ (clip v * 32767) : ℚ))))
    else if target_bits == 24 then
      .ok (dithered.map (fun row => row.map (fun v => (truncQ (clip v * 8388607) : ℚ))))
    else if target_bits == 32 then
      .ok (dithered.map (fun row => row.map clip))
    else
      .error (("Unsupported target bit depth: ".toList) ++ natToStr target_bits)

/-- AudioConverter.convert_audio, lines 176-218: sample rate, then
channels, then bit depth, each conversion guarded by a difference test.
The None-defaulting of target arguments is resolved by the caller in this
embedding (the source substitutes the configured defaults). -/
def convert_audio (resampleFn : ℕ → List ℚ → ℕ → ℚ) (noise : ℕ → ℕ → ℚ)
    (dithering : Bool) (audio_data : AudioData)
    (current_rate current_bits current_channels : ℕ)
    (target_rate target_bits target_channels : ℕ) : Except Str AudioData := do
  let c1 :=
    if ¬ (current_rate == target_rate) then
      convert_sample_rate resampleFn audio_data current_rate target_rate
    else audio_data
  let c2 ←
    if ¬ (current_channels == target_channels) then
      convert_channels c1 current_channels target_channels
    else .ok c1
  let c3 ←
    if ¬ (current_bits == target_bits) then
      convert_bit_depth noise dithering c2 current_bits target_bits
    else .ok c2
  .ok c3

/-! ## SampleChainBuilder (src/audio_processing/sample_chain_builder.py) -/

/-- A filesystem path, embedded as its list of components (pathlib
parts, root to leaf; the last component is the file name). -/
abbrev PyPath := List Str

/-- Last path component (pathlib Path.name; the empty string for the
empty path, as in pathlib). -/
def pathName (p : PyPath) : Str := p.getLast?.getD []

/-- Parent path (pathlib Path.parent). -/
def pathParent (p : PyPath) : PyPath := p.dropLast

/-- The string form of a path, components joined by slashes (str() of a
relative pathlib path, the key Python compares and sorts by). -/
def pathStr (p : PyPath) : Str := List.intercalate ("/".toList) p

/-- Configuration slice the builder reads (build_sample_chain lines
33-39; values are passed explicitly, there are no hidden defaults in the
embedding). -/
structure BuilderConfig where
  output_sample_rate : ℕ
  output_bit_depth : ℕ
  output_channels : ℕ
  enforce_power_of_two : Bool
  pad_strategy : Str
  max_samples_per_chain : ℕ
  dithering : Bool
  deriving DecidableEq

/-- One successfully loaded audio file, the fields of the dicts built by
SampleChainBuilder._load_audio_files that later steps read (bit depth and
channel count are also stored by the source but never consulted by the
chain assembly, which re-infers them from the arrays). -/
structure LoadedAudio where
  file_path : PyPath
  audio_data : AudioData
  sample_rate : ℕ
  deriving DecidableEq

/-- SampleChainBuilder._load_audio_files, lines 97-130.  The decoding of
one file (AudioProcessor.load_audio_file) is disk I/O and enters as the
oracle loader: none models the exception path that the source logs and
skips, some gives the decoded buffer and its sample rate. -/
def load_audio_files (loader : PyPath → Option (AudioData × ℕ))
    (file_paths : List PyPath) : Except Str (List LoadedAudio) :=
  let audio_files := file_paths.filterMap (fun p =>
    (loader p).map (fun dr => LoadedAudio.mk p dr.1 dr.2))
  if audio_files.isEmpty then .error ("No audio files could be loaded".toList)
  else .ok audio_files

/-- Largest element of a list of naturals (Python max on the nonempty
lists this is applied to; 0 for the empty list). -/
def listMaxNat (l : List ℕ) : ℕ := l.foldl max 0

/-- SampleChainBuilder._get_target_sample_length, lines 132-153: start
from the largest raw length, then fold in int(length * target/current)
for every file whose rate differs from the output rate. -/
def get_target_sample_length (cfg : BuilderConfig) (audio_files : List LoadedAudio) : ℕ :=
  let max_length := listMaxNat (audio_files.map (fun a => a.audio_data.length))
  audio_files.foldl (fun acc a =>
    if a.sample_rate ≠ cfg.output_sample_rate then
      max acc (a.audio_data.length * cfg.output_sample_rate / a.sample_rate)
    else acc) max_length

/-- SampleChainBuilder._normalize_sample_lengths, lines 155-198: resample
to the output rate when needed, then zero-pad or truncate each buffer to
the target length (2-D branch; the loader only produces 2-D buffers). -/
def normalize_sample_lengths (resampleFn : ℕ → List ℚ → ℕ → ℚ) (cfg : BuilderConfig)
    (audio_files : List LoadedAudio) (target_length : ℕ) : List AudioData :=
  audio_files.map (fun a =>
    let audio_data :=
      if a.sample_rate ≠ cfg.output_sample_rate then
        convert_sample_rate resampleFn a.audio_data a.sample_rate cfg.output_sample_rate
      else a.audio_data
    if audio_data.length < target_length then
      audio_data ++ List.replicate (target_length - audio_data.length)
        (List.replicate (numChannels audio_data) (0 : ℚ))
    else if audio_data.length > target_length then
      audio_data.take target_length
    else audio_data)

/-- SampleChainBuilder._get_final_sample_count, lines 200-221. -/
def get_final_sample_count (cfg : BuilderConfig) (current_count : ℕ) : ℕ :=
  if ¬ cfg.enforce_power_of_two then current_count
  else
    let target_count := nextPow2 current_count
    if target_count > cfg.max_samples_per_chain then cfg.max_samples_per_chain
    else target_count

/-- A zero-filled slot of the same 2-D shape as the given slot
(np.zeros(sample_shape) in the silence branch). -/
def silenceLike (sample : AudioData) : AudioData :=
  List.replicate sample.length (List.replicate (numChannels sample) (0 : ℚ))

/-- SampleChainBuilder._pad_samples_to_power_of_two, lines 223-261: if the
slot list already reaches the target it is truncated to it; otherwise the
repeat-last strategy appends copies of the last slot (captured once before
the loop), the silence strategy appends zero slots shaped like the first
slot, and any other strategy string (including none) leaves the list
unchanged. -/
def pad_samples_to_power_of_two (cfg : BuilderConfig)
    (samples : List AudioData) (target_count : ℕ) : List AudioData :=
  if samples.length ≥ target_count then samples.take target_count
  else if cfg.pad_strategy == "repeat-last".toList then
    samples ++ List.replicate (target_count - samples.length) (samples.getLast?.getD [])
  else if cfg.pad_strategy == "silence".toList then
    samples ++ List.replicate (target_count - samples.length)
      (silenceLike (samples.head?.getD []))
  else samples

/-- SampleChainBuilder._convert_samples_to_target_format, lines 263-292,
unrolled as a recursion over the slot list carrying the slot index.  Every
slot reaching this step is a float array (soundfile decodes to float64,
resampling, zero padding and slot copies stay float), so the dtype test of
line 278 always yields current_bits = 32; the current channel count is
shape[1] of the 2-D slot.  The slot index selects the dither draw of that
slot's conversion (numpy draws fresh randomness per convert_bit_depth
call). -/
def convertSlots (resampleFn : ℕ → List ℚ → ℕ → ℚ) (noiseF : ℕ → ℕ → ℕ → ℚ)
    (cfg : BuilderConfig) : ℕ → List AudioData → Except Str (List AudioData)
  | _, [] => .ok []
  | i, s :: rest => do
    let c ← convert_audio resampleFn (noiseF i) cfg.dithering s
      cfg.output_sample_rate 32 (numChannels s)
      cfg.output_sample_rate cfg.output_bit_depth cfg.output_channels
    let cs ← convertSlots resampleFn noiseF cfg (i + 1) rest
    .ok (c :: cs)

/-- SampleChainBuilder._concatenate_samples, lines 294-313: stack all 2-D
slots along the time axis (np.vstack). -/
def concatenate_samples (samples : List AudioData) : AudioData :=
  samples.flatMap id

/-- Chain metadata record of _create_chain_metadata, lines 315-347 (the
created_at wall-clock timestamp is omitted as an external effect). -/
structure ChainMetadata where
  group_key : Str
  sample_count : ℕ
  sample_length : ℕ
  sample_duration : ℚ
  total_duration : ℚ
  sample_rate : ℕ
  bit_depth : ℕ
  channels : ℕ
  original_files : List PyPath
  power_of_two : Bool
  pad_strategy : Str
  deriving DecidableEq

/-- SampleChainBuilder._create_chain_metadata, lines 315-347. -/
def create_chain_metadata (cfg : BuilderConfig) (group_key : Str)
    (file_paths : List PyPath) (sample_count sample_length : ℕ)
    (chain_audio : AudioData) : ChainMetadata :=
  { group_key := group_key
    sample_count := sample_count
    sample_length := sample_length
    sample_duration := (sample_length : ℚ) / (cfg.output_sample_rate : ℚ)
    total_duration := (chain_audio.length : ℚ) / (cfg.output_sample_rate : ℚ)
    sample_rate := cfg.output_sample_rate
    bit_depth := cfg.output_bit_depth
    channels := cfg.output_channels
    original_files := file_paths
    power_of_two := is_power_of_two (sample_count : ℤ)
    pad_strategy := cfg.pad_strategy }

/-- The result dictionary of build_sample_chain, lines 89-95. -/
structure ChainResult where
  audio_data : AudioData
  metadata : ChainMetadata
  sample_count : ℕ
  sample_length : ℕ
  total_duration : ℚ
  deriving DecidableEq

/-- SampleChainBuilder.build_sample_chain, lines 41-95: load, measure,
normalize lengths, choose the final count, pad, convert every slot to the
output format, concatenate, and assemble the result record.  Python
exceptions (ValueError on an empty input list, RuntimeError when no file
loads, the ValueError raised by an unsupported conversion target) are the
error branch of the Except value. -/
def build_sample_chain (resampleFn : ℕ → List ℚ → ℕ → ℚ)
    (noiseF : ℕ → ℕ → ℕ → ℚ) (loader : PyPath → Option (AudioData × ℕ))
    (cfg : BuilderConfig) (file_paths : List PyPath) (group_key : Str) :
    Except Str ChainResult :=
  if file_paths.isEmpty then .error ("No file paths provided".toList)
  else do
    let audio_files ← load_audio_files loader file_paths
    let target_length := get_target_sample_length cfg audio_files
    let normalized_samples := normalize_sample_lengths resampleFn cfg audio_files target_length
    let final_sample_count := get_final_sample_count cfg normalized_samples.length
    let padded_samples := pad_samples_to_power_of_two cfg normalized_samples final_sample_count
    let converted_samples ← convertSlots resampleFn noiseF cfg 0 padded_samples
    let chain_audio := concatenate_samples converted_samples
    let metadata := create_chain_metadata cfg group_key file_paths
      final_sample_count target_length chain_audio
    .ok { audio_data := chain_audio
          metadata := metadata
          sample_count := final_sample_count
          sample_length := target_length
          total_duration := (chain_audio.length : ℚ) / (cfg.output_sample_rate : ℚ) }

/-- Slot i of a built chain: the i-th block of sample_length frames of the
concatenated audio (how a sampler, and the repository's own verification
tests, index into a chain). -/
def chainSlot (r : ChainResult) (i : ℕ) : AudioData :=
  (r.audio_data.drop (i * r.sample_length)).take r.sample_length

/-! ## SampleChainConfig (src/utils/sample_chain_config.py) -/

/-- Hi-hat sample kind. -/
inductive HihatKind where
  | closed
  | openHat
  deriving DecidableEq

/-- The closed hi-hat marker patterns (hihat_patterns['closed'], line 31). -/
def closedPatterns : List Str :=
  [("closedhh".toList), ("clsdhh".toList), ("closed".toList), ("clsd".toList)]

/-- The open hi-hat marker patterns (hihat_patterns['open'], line 32,
including the known misspelling). -/
def openPatterns : List Str :=
  [("openhh".toList), ("opennhh".toList), ("open".toList), ("opn".toList)]

/-- First hi-hat kind whose pattern list has a member contained in the
given lower-cased string, iterating the pattern dict in insertion order
(closed before open), as the loops of is_hihat_file lines 71-80 do. -/
def findHihatKind (s : Str) : Option HihatKind :=
  if closedPatterns.any (fun pat => containsSub pat s) then some .closed
  else if openPatterns.any (fun pat => containsSub pat s) then some .openHat
  else none

/-- SampleChainConfig.is_hihat_file, lines 55-82: the parent directory
name is tested first, then the file name; the result pairs the flag with
the detected kind. -/
def is_hihat_file (p : PyPath) : Bool × Option HihatKind :=
  let parent_dir := lowerStr (pathName (pathParent p))
  let filename := lowerStr (pathName p)
  match findHihatKind parent_dir with
  | some t => (true, some t)
  | none =>
    match findHihatKind filename with
    | some t => (true, some t)
    | none => (false, none)

/-- Index of the last dot of a name, if any (str.rfind('.')). -/
def rfindDot (s : Str) : Option ℕ :=
  (List.range s.length).foldl (fun acc i => if s.getD i ' ' = '.' then some i else acc) none

/-- Stem of a path (pathlib Path.stem): the final component without its
suffix; a suffix exists when the last dot is neither the first nor the
last character of the name. -/
def pathStem (p : PyPath) : Str :=
  let name := pathName p
  match rfindDot name with
  | some i => if 0 < i ∧ i + 1 < name.length then name.take i else name
  | none => name

/-- Separator class of the token split of extract_base_name
(the regex character class of whitespace, underscore and hyphen). -/
def isSepChar (c : Char) : Bool :=
  c = ' ' || c = '\t' || c = '\n' || c = '\r' || c = '_' || c = '-'

/-- Splitting on maximal separator runs with explicit fuel (re.split on
the class above with a + quantifier: runs collapse, while a leading or
trailing run contributes an empty token, exactly as in Python). -/
def splitRunsAux : ℕ → Str → List Str
  | 0, s => [s]
  | fuel + 1, s =>
    let tok := s.takeWhile (fun c => ¬ isSepChar c)
    let rest := s.dropWhile (fun c => ¬ isSepChar c)
    match rest with
    | [] => [tok]
    | _ :: _ => tok :: splitRunsAux fuel (rest.dropWhile isSepChar)

/-- Token split of a filename (re.split of extract_base_name line 100). -/
def splitTokens (s : Str) : List Str := splitRunsAux (s.length + 1) s

/-- The hi-hat marker words dropped by extract_base_name (skip_words,
line 97). -/
def skipWords : List Str :=
  [("closedhh".toList), ("clsdhh".toList), ("openhh".toList), ("opennhh".toList),
   ("closed".toList), ("clsd".toList), ("open".toList), ("opn".toList)]

/-- SampleChainConfig.extract_base_name, lines 84-107: split the stem on
separator runs, drop tokens whose lower-casing is a marker word, rejoin
with single spaces; if everything was dropped fall back to the whole
stem. -/
def extract_base_name (p : PyPath) : Str :=
  let filename := pathStem p
  let words := splitTokens filename
  let filtered_words := words.filter (fun w => ¬ skipWords.contains (lowerStr w))
  if ¬ filtered_words.isEmpty then List.intercalate (" ".toList) filtered_words
  else filename

/-- Per-file info of SampleChainConfig.analyze_sample_durations (duration
in seconds, sample rate, bit depth), produced by reading file headers. -/
structure AInfo where
  duration : ℚ
  sample_rate : ℕ
  bit_depth : ℕ
  deriving DecidableEq

/-- Configuration slice the planner reads: the chain cap and the audio
output settings used by the size estimate. -/
structure PlannerConfig where
  max_samples_per_chain : ℕ
  sample_rate : ℕ
  bit_depth : ℕ
  channels : ℕ
  deriving DecidableEq

/-- SampleChainConfig.estimate_chain_file_size, lines 172-200 (int() is
truncation toward zero). -/
def estimate_chain_file_size (cfg : PlannerConfig) (sample_count : ℕ)
    (longest_sample_duration : ℚ) : ℚ :=
  let bytes_per_sample := (cfg.bit_depth / 8) * cfg.channels
  let total_samples := truncQ (longest_sample_duration * (cfg.sample_rate : ℚ)) * (sample_count : ℤ)
  ((total_samples * (bytes_per_sample : ℤ) : ℤ) : ℚ) / (1024 * 1024)

/-! ## SmartChainPlanner (src/utils/smart_chain_planner.py) -/

/-- Fields of the metadata dict a planner chain carries
(_create_chain_from_files lines 228-243; the open key/value dict is
embedded as a record whose variant keys are optional). -/
structure PlanMeta where
  type : Str
  sample_count : ℕ
  estimated_duration_seconds : ℚ
  estimated_file_size_mb : ℚ
  chain_number : ℕ
  max_samples_per_chain : ℕ
  closed_count : Option ℕ
  open_count : Option ℕ
  hat_names : Option (List Str)
  total_files : ℕ
  interleaved_sequence : Option (List Str)
  deriving DecidableEq

/-- A planned chain: its ordered file list and metadata. -/
structure PlanChain where
  files : List PyPath
  metadata : PlanMeta
  deriving DecidableEq

/-- The additional_metadata dict passed into _create_chain_from_files:
hi-hat chains pass counts and names, regular chains pass only
total_files. -/
structure ExtraMeta where
  closed_count : Option ℕ
  open_count : Option ℕ
  hat_names : Option (List Str)
  total_files : ℕ
  deriving DecidableEq

/-- Keep the first occurrence of every string (the key set of a Python
dict comprehension in insertion order). -/
def dedupFirst (l : List Str) : List Str :=
  l.foldl (fun acc s => if acc.contains s then acc else acc ++ [s]) []

/-- Lookup in an insertion-ordered association list with string keys. -/
def lookupStr {α : Type} (d : List (Str × α)) (k : Str) : Option α :=
  (d.find? (fun kv => kv.1 == k)).map (fun kv => kv.2)

/-- Python dict assignment d[k] = v: replace the value in place if the key
exists, else append the pair. -/
def dictUpsert {α : Type} (d : List (Str × α)) (k : Str) (v : α) : List (Str × α) :=
  if (lookupStr d k).isSome then
    d.map (fun kv => if kv.1 == k then (kv.1, v) else kv)
  else d ++ [(k, v)]

/-- Python dict.update(e) on d: existing keys keep their position and take
the new value, new keys are appended in e's order. -/
def dictUpdate {α : Type} (d e : List (Str × α)) : List (Str × α) :=
  (d.map (fun kv => (kv.1, (lookupStr e kv.1).getD kv.2))) ++
    e.filter (fun kv => (lookupStr d kv.1).isNone)

/-- Path comparison key (pathlib orders paths by their string form). -/
def pathLt (p q : PyPath) : Prop := strLt (pathStr p) (pathStr q) = true

instance : DecidableRel pathLt := fun p q => by
  unfold pathLt
  infer_instance

/-- Python sorted() on paths: a stable ascending sort by the path string
(embedded with insertion sort, which is stable). -/
def pySortPaths (l : List PyPath) : List PyPath := List.insertionSort pathLt l

/-- Grouping relation underlying the hi-hat defaultdict: closed and open
file lists per base name. -/
structure HGroup where
  closedFiles : List PyPath
  openFiles : List PyPath
  deriving DecidableEq

/-- Append one classified hi-hat file to its base-name group, creating the
group at the end on first sight (defaultdict insertion-order
semantics). -/
def addToGroups (groups : List (Str × HGroup)) (bn : Str) (t : HihatKind)
    (p : PyPath) : List (Str × HGroup) :=
  if (lookupStr groups bn).isSome then
    groups.map (fun kv =>
      if kv.1 == bn then
        (kv.1, match t with
          | .closed => HGroup.mk (kv.2.closedFiles ++ [p]) kv.2.openFiles
          | .openHat => HGroup.mk kv.2.closedFiles (kv.2.openFiles ++ [p]))
      else kv)
  else
    groups ++ [(bn, match t with
      | .closed => HGroup.mk [p] []
      | .openHat => HGroup.mk [] [p])]

/-- The base-name grouping loop of _create_combined_hihat_chains lines
84-88. -/
def buildHihatGroups (hihat_files : List (PyPath × HihatKind)) : List (Str × HGroup) :=
  hihat_files.foldl (fun gs pt => addToGroups gs (extract_base_name pt.1) pt.2 pt.1) []

/-- Comparison of group entries by base name (sorted(hihat_groups.items())
compares the distinct first tuple components). -/
def groupLt (a b : Str × HGroup) : Prop := strLt a.1 b.1 = true

instance : DecidableRel groupLt := fun a b => by
  unfold groupLt
  infer_instance

/-- SmartChainPlanner._create_interleaved_sequence, lines 250-281:
re-group the chain's files by base name and kind, then for each base name
in sorted order list sorted closed files before sorted open files,
rendered as path strings. -/
def create_interleaved_sequence (files : List PyPath) : List Str :=
  let file_groups := buildHihatGroups (files.filterMap (fun p =>
    match is_hihat_file p with
    | (true, some t) => some (p, t)
    | _ => none))
  let sortedGroups := List.insertionSort groupLt file_groups
  (sortedGroups.flatMap (fun kv =>
    pySortPaths kv.2.closedFiles ++ pySortPaths kv.2.openFiles)).map pathStr

/-- Test for the hats name space: chain_name.startswith('hats'). -/
def isHatsName (chain_name : Str) : Bool := startsWith ("hats".toList) chain_name

/-- SmartChainPlanner._create_chain_from_files, lines 205-248: gather the
audio info of the chain's files that the duration analysis covered (a dict
comprehension keyed by path string, so duplicates collapse), sum their
durations, estimate the output file size, and assemble the metadata
record; hi-hat chains (name starting with hats) additionally carry the
interleaved sequence. -/
def create_chain_from_files (cfg : PlannerConfig) (files : List PyPath)
    (audio_info : Str → Option AInfo) (chain_name : Str) (extra : ExtraMeta) :
    PlanChain :=
  let present := (dedupFirst (files.map pathStr)).filter (fun s => (audio_info s).isSome)
  let durations := present.map (fun s => ((audio_info s).map AInfo.duration).getD 0)
  let total_duration := durations.sum
  let estimated_size_mb :=
    if present.isEmpty then (0 : ℚ)
    else estimate_chain_file_size cfg present.length
      (durations.foldl max (durations.headD 0))
  { files := files
    metadata :=
      { type := if isHatsName chain_name then ("hihat".toList) else ("regular".toList)
        sample_count := files.length
        estimated_duration_seconds := total_duration
        estimated_file_size_mb := estimated_size_mb
        chain_number := 1
        max_samples_per_chain := cfg.max_samples_per_chain
        closed_count := extra.closed_count
        open_count := extra.open_count
        hat_names := extra.hat_names
        total_files := extra.total_files
        interleaved_sequence :=
          if isHatsName chain_name then some (create_interleaved_sequence files)
          else none } }

/-- Name of the n-th combined hi-hat chain (f-string hats_N). -/
def hatsName (n : ℕ) : Str := ("hats_".toList) ++ natToStr n

/-- Running metadata of the hi-hat accumulation loop
(current_chain_metadata of lines 98-103). -/
structure HihatRunMeta where
  closed_count : ℕ
  open_count : ℕ
  hat_names : List Str
  total_files : ℕ
  deriving DecidableEq

/-- State of the hi-hat accumulation loop of lines 97-136. -/
structure HihatAcc where
  chains : List (Str × PlanChain)
  chain_counter : ℕ
  current_chain_files : List PyPath
  current_chain_metadata : HihatRunMeta
  deriving DecidableEq

/-- The additional-metadata dict built from the running hi-hat
metadata. -/
def toExtra (m : HihatRunMeta) : ExtraMeta :=
  { closed_count := some m.closed_count
    open_count := some m.open_count
    hat_names := some m.hat_names
    total_files := m.total_files }

/-- One iteration of the hi-hat accumulation loop (lines 105-136): sort
the group's closed and open files, and either flush the current chain
(when the group would overflow the cap) and restart with this group, or
extend the current chain with it. -/
def hihatStep (cfg : PlannerConfig) (audio_info : Str → Option AInfo)
    (acc : HihatAcc) (g : Str × HGroup) : HihatAcc :=
  let closed_files := pySortPaths g.2.closedFiles
  let open_files := pySortPaths g.2.openFiles
  let all_files := closed_files ++ open_files
  if acc.current_chain_files.length + all_files.length > cfg.max_samples_per_chain then
    let acc1 :=
      if ¬ acc.current_chain_files.isEmpty then
        { acc with
          chains := dictUpsert acc.chains (hatsName acc.chain_counter)
            (create_chain_from_files cfg acc.current_chain_files audio_info
              (hatsName acc.chain_counter) (toExtra acc.current_chain_metadata))
          chain_counter := acc.chain_counter + 1 }
      else acc
    { acc1 with
      current_chain_files := all_files
      current_chain_metadata :=
        { closed_count := closed_files.length
          open_count := open_files.length
          hat_names := [g.1]
          total_files := all_files.length } }
  else
    { acc with
      current_chain_files := acc.current_chain_files ++ all_files
      current_chain_metadata :=
        { closed_count := acc.current_chain_metadata.closed_count + closed_files.length
          open_count := acc.current_chain_metadata.open_count + open_files.length
          hat_names := acc.current_chain_metadata.hat_names ++ [g.1]
          total_files := acc.current_chain_metadata.total_files + all_files.length } }

/-- SmartChainPlanner._create_combined_hihat_chains, lines 68-145: group
the classified hi-hat files by base name, iterate the groups in sorted
base-name order through the accumulation loop, and flush the final
nonempty chain. -/
def create_combined_hihat_chains (cfg : PlannerConfig)
    (hihat_files : List (PyPath × HihatKind)) (audio_info : Str → Option AInfo) :
    List (Str × PlanChain) :=
  if hihat_files.isEmpty then []
  else
    let hihat_groups := buildHihatGroups hihat_files
    let sorted_groups := List.insertionSort groupLt hihat_groups
    let final := sorted_groups.foldl (hihatStep cfg audio_info)
      { chains := []
        chain_counter := 1
        current_chain_files := []
        current_chain_metadata :=
          { closed_count := 0, open_count := 0, hat_names := [], total_files := 0 } }
    if ¬ final.current_chain_files.isEmpty then
      dictUpsert final.chains (hatsName final.chain_counter)
        (create_chain_from_files cfg final.current_chain_files audio_info
          (hatsName final.chain_counter) (toExtra final.current_chain_metadata))
    else final.chains

/-- Group key of a regular file (lines 165-173): grandparent/parent when
both exist, the parent name when only it exists, root for a file with no
parent directory. -/
def regularGroupKey (p : PyPath) : Str :=
  let parent_dir := pathParent p
  if ¬ (pathName parent_dir).isEmpty then
    if ¬ (pathName (pathParent parent_dir)).isEmpty then
      pathName (pathParent parent_dir) ++ ("/".toList) ++ pathName parent_dir
    else pathName parent_dir
  else ("root".toList)

/-- Append a file to its directory group, creating the group at the end on
first sight (defaultdict(list) semantics of lines 163-173). -/
def addToDirGroups (groups : List (Str × List PyPath)) (k : Str) (p : PyPath) :
    List (Str × List PyPath) :=
  if (lookupStr groups k).isSome then
    groups.map (fun kv => if kv.1 == k then (kv.1, kv.2 ++ [p]) else kv)
  else groups ++ [(k, [p])]

/-- SmartChainPlanner._create_regular_chains, lines 147-203: bucket the
regular files by directory key, sort each bucket, and emit one chain per
bucket within the cap, or consecutive chunks of cap size named key_1,
key_2, ... for an oversized bucket. -/
def create_regular_chains (cfg : PlannerConfig) (regular_files : List PyPath)
    (audio_info : Str → Option AInfo) : List (Str × PlanChain) :=
  if regular_files.isEmpty then []
  else
    let directory_groups := regular_files.foldl
      (fun gs p => addToDirGroups gs (regularGroupKey p) p) []
    directory_groups.foldl (fun chains kf =>
      let sorted_files := pySortPaths kf.2
      if sorted_files.length ≤ cfg.max_samples_per_chain then
        dictUpsert chains kf.1
          (create_chain_from_files cfg sorted_files audio_info kf.1
            { closed_count := none, open_count := none, hat_names := none
              total_files := sorted_files.length })
      else
        let num_chains := (sorted_files.length + cfg.max_samples_per_chain - 1) /
          cfg.max_samples_per_chain
        (List.range num_chains).foldl (fun cs i =>
          let chain_files := (sorted_files.drop (i * cfg.max_samples_per_chain)).take
            cfg.max_samples_per_chain
          let chain_name := kf.1 ++ ("_".toList) ++ natToStr (i + 1)
          dictUpsert cs chain_name
            (create_chain_from_files cfg chain_files audio_info chain_name
              { closed_count := none, open_count := none, hat_names := none
                total_files := chain_files.length })) chains) []

/-- SmartChainPlanner.plan_smart_chains, lines 29-66: classify every file
as hi-hat or regular, plan both chain families, and merge them into one
dict (hi-hat chains first, regular chains second, so a regular chain
overwrites a hi-hat chain of the same name).  The duration analysis of
line 42 reads file headers from disk and enters as the audio_info
oracle. -/
def plan_smart_chains (cfg : PlannerConfig) (audio_info : Str → Option AInfo)
    (audio_files : List PyPath) : List (Str × PlanChain) :=
  let hihat_files := audio_files.filterMap (fun p =>
    match is_hihat_file p with
    | (true, some t) => some (p, t)
    | _ => none)
  let regular_files := audio_files.filter (fun p => ¬ (is_hihat_file p).1)
  let hihat_chains := create_combined_hihat_chains cfg hihat_files audio_info
  let regular_chains := create_regular_chains cfg regular_files audio_info
  dictUpdate (dictUpdate [] hihat_chains) regular_chains

/-! ## ChainExporter (src/audio_processing/chain_exporter.py) -/

/-- The slice of the chain_data dict that _generate_filename consults,
with optional fields for the dict keys it reads with .get defaults
(name at the top level; sample_count and estimated_duration_seconds in
the metadata dict) alongside the keys the surrounding spec and tests
speak about (group_key and the per-slot sample_duration, which the
builder's metadata carries). -/
structure ExportChainData where
  name : Option Str
  meta_group_key : Option Str
  meta_sample_count : Option ℕ
  meta_sample_duration : Option ℚ
  meta_estimated_duration_seconds : Option ℚ
  deriving DecidableEq

/-- Python str.split(sep) for a one-character separator: split at every
occurrence, keeping empty pieces, with explicit fuel. -/
def splitCharAux (sep : Char) : ℕ → Str → List Str
  | 0, s => [s]
  | fuel + 1, s =>
    let tok := s.takeWhile (fun c => c ≠ sep)
    let rest := s.dropWhile (fun c => c ≠ sep)
    match rest with
    | [] => [tok]
    | _ :: r => tok :: splitCharAux sep fuel r

/-- Python str.split for a one-character separator. -/
def splitChar (sep : Char) (s : Str) : List Str := splitCharAux sep (s.length + 1) s

/-- Round half to even at integer precision, the rounding of Python float
formatting (idealized over the exact rational value). -/
def roundHalfEven (q : ℚ) : ℤ :=
  let n := q.floor
  let fr := q - (n : ℚ)
  if fr < 1 / 2 then n
  else if 1 / 2 < fr then n + 1
  else if n % 2 = 0 then n else n + 1

/-- Python f-string formatting with the .3f specifier on a numeric value
(three digits after the decimal point). -/
def fmt3 (q : ℚ) : Str :=
  let m := roundHalfEven (q * 1000)
  let sgn : Str := if m < 0 then ("-".toList) else []
  let a := m.natAbs
  sgn ++ natToStr (a / 1000) ++ (".".toList) ++ (natToStr (1000 + a % 1000)).drop 1

/-- ChainExporter._generate_filename, lines 88-119: the group key is read
from the top-level name key (defaulting to unknown), a slash-separated key
contributes its first two components joined by a hyphen, and the numeric
components are the metadata's sample_count and estimated_duration_seconds
(defaulting to 0), the latter rendered with three decimals. -/
def generate_filename (chain_data : ExportChainData) : Str :=
  let group_key := chain_data.name.getD ("unknown".toList)
  let base_name :=
    if containsSub ("/".toList) group_key then
      let group_parts := splitChar '/' group_key
      if group_parts.length ≥ 2 then
        group_parts.getD 0 [] ++ ("-".toList) ++ group_parts.getD 1 []
      else group_key.map (fun c => if c = '/' then '-' else c)
    else group_key
  let sample_count := chain_data.meta_sample_count.getD 0
  let sample_duration := chain_data.meta_estimated_duration_seconds.getD 0
  base_name ++ ("-".toList) ++ natToStr sample_count ++ ("-".toList) ++
    fmt3 sample_duration ++ ("s".toList)

/-! ## Spec-side comparison definitions -/

/-- Modelled from the spec (section 4.3 step 2 and the claim C3): the
per-slot frame count as the specification words it, namely the maximum
over the loaded files of the length each file would have after resampling
to the configured output rate, with no contribution from the raw length
of a file recorded at a different rate. -/
def specTargetSampleLength (cfg : BuilderConfig) (audio_files : List LoadedAudio) : ℕ :=
  listMaxNat (audio_files.map (fun a =>
    if a.sample_rate ≠ cfg.output_sample_rate then
      a.audio_data.length * cfg.output_sample_rate / a.sample_rate
    else a.audio_data.length))

/-- The value the code's fold actually computes, written as one maximum:
every file contributes its raw length, and a file at a different rate
additionally contributes its converted length. -/
def codeTargetSampleLength (cfg : BuilderConfig) (audio_files : List LoadedAudio) : ℕ :=
  listMaxNat (audio_files.map (fun a =>
    if a.sample_rate ≠ cfg.output_sample_rate then
      max a.audio_data.length (a.audio_data.length * cfg.output_sample_rate / a.sample_rate)
    else a.audio_data.length))

/-! ## Collision-free emission view of the planner

The planner stores chains in Python dicts; an assignment to an existing
key silently overwrites the earlier chain.  The following clones of the
two chain-creating folds differ only in that they append every emitted
chain to a list instead of writing it into a dict, so that equality with
the dict versions states precisely that no name collision occurred. -/

/-- hihatStep with plain list append in place of the dict assignment. -/
def hihatStepE (cfg : PlannerConfig) (audio_info : Str → Option AInfo)
    (acc : HihatAcc) (g : Str × HGroup) : HihatAcc :=
  let closed_files := pySortPaths g.2.closedFiles
  let open_files := pySortPaths g.2.openFiles
  let all_files := closed_files ++ open_files
  if acc.current_chain_files.length + all_files.length > cfg.max_samples_per_chain then
    let acc1 :=
      if ¬ acc.current_chain_files.isEmpty then
        { acc with
          chains := acc.chains ++ [(hatsName acc.chain_counter,
            create_chain_from_files cfg acc.current_chain_files audio_info
              (hatsName acc.chain_counter) (toExtra acc.current_chain_metadata))]
          chain_counter := acc.chain_counter + 1 }
      else acc
    { acc1 with
      current_chain_files := all_files
      current_chain_metadata :=
        { closed_count := closed_files.length
          open_count := open_files.length
          hat_names := [g.1]
          total_files := all_files.length } }
  else
    { acc with
      current_chain_files := acc.current_chain_files ++ all_files
      current_chain_metadata :=
        { closed_count := acc.current_chain_metadata.closed_count + closed_files.length
          open_count := acc.current_chain_metadata.open_count + open_files.length
          hat_names := acc.current_chain_metadata.hat_names ++ [g.1]
          total_files := acc.current_chain_metadata.total_files + all_files.length } }

/-- create_combined_hihat_chains with list append in place of dict
assignment. -/
def hihatEmitted (cfg : PlannerConfig) (hihat_files : List (PyPath × HihatKind))
    (audio_info : Str → Option AInfo) : List (Str × PlanChain) :=
  if hihat_files.isEmpty then []
  else
    let hihat_groups := buildHihatGroups hihat_files
    let sorted_groups := List.insertionSort groupLt hihat_groups
    let final := sorted_groups.foldl (hihatStepE cfg audio_info)
      { chains := []
        chain_counter := 1
        current_chain_files := []
        current_chain_metadata :=
          { closed_count := 0, open_count := 0, hat_names := [], total_files := 0 } }
    if ¬ final.current_chain_files.isEmpty then
      final.chains ++ [(hatsName final.chain_counter,
        create_chain_from_files cfg final.current_chain_files audio_info
          (hatsName final.chain_counter) (toExtra final.current_chain_metadata))]
    else final.chains

/-- create_regular_chains with list append in place of dict assignment. -/
def regularEmitted (cfg : PlannerConfig) (regular_files : List PyPath)
    (audio_info : Str → Option AInfo) : List (Str × PlanChain) :=
  if regular_files.isEmpty then []
  else
    let directory_groups := regular_files.foldl
      (fun gs p => addToDirGroups gs (regularGroupKey p) p) []
    directory_groups.foldl (fun chains kf =>
      let sorted_files := pySortPaths kf.2
      if sorted_files.length ≤ cfg.max_samples_per_chain then
        chains ++ [(kf.1,
          create_chain_from_files cfg sorted_files audio_info kf.1
            { closed_count := none, open_count := none, hat_names := none
              total_files := sorted_files.length })]
      else
        let num_chains := (sorted_files.length + cfg.max_samples_per_chain - 1) /
          cfg.max_samples_per_chain
        (List.range num_chains).foldl (fun cs i =>
          let chain_files := (sorted_files.drop (i * cfg.max_samples_per_chain)).take
            cfg.max_samples_per_chain
          let chain_name := kf.1 ++ ("_".toList) ++ natToStr (i + 1)
          cs ++ [(chain_name,
            create_chain_from_files cfg chain_files audio_info chain_name
              { closed_count := none, open_count := none, hat_names := none
                total_files := chain_files.length })]) chains) []

/-! ## Concrete fixtures used by counterexamples and witnesses -/

/-- An audio-info oracle for files whose headers were not analyzed. -/
def noInfo : Str → Option AInfo := fun _ => none

/-- A resampling oracle returning silence (the counterexamples and
witnesses below only depend on shapes, never on resampled values). -/
def zeroResample : ℕ → List ℚ → ℕ → ℚ := fun _ _ _ => 0

/-- A dither oracle that always draws zero. -/
def zeroNoise : ℕ → ℕ → ℕ → ℚ := fun _ _ _ => 0

/-- A dither oracle whose draw for slot 3 differs from the draw for
slot 2 (numpy draws fresh triangular noise for every converted slot, so
distinct draws across slots are the generic situation). -/
def unequalNoise : ℕ → ℕ → ℕ → ℚ := fun slot _ _ => if slot = 3 then -(1 / 2) else 0

/-- Fixture path a.wav. -/
def fxPathA : PyPath := [("a.wav".toList)]

/-- Fixture path b.wav. -/
def fxPathB : PyPath := [("b.wav".toList)]

/-- Fixture path c.wav. -/
def fxPathC : PyPath := [("c.wav".toList)]

/-- A loader oracle decoding the three fixture paths to one-frame stereo
buffers at the output rate (the third one sits exactly on a 16-bit
quantization boundary, so any nonzero dither draw moves its encoded
value) and failing on every other path. -/
def fxLoader : PyPath → Option (AudioData × ℕ) := fun p =>
  if p = fxPathA then some ([[1 / 4, 1 / 4]], 48000)
  else if p = fxPathB then some ([[1 / 2, 1 / 2]], 48000)
  else if p = fxPathC then some ([[16384 / 32767, 16384 / 32767]], 48000)
  else none

/-- Builder configuration with the pad strategy none (and otherwise the
source defaults). -/
def fxCfgNone : BuilderConfig :=
  { output_sample_rate := 48000, output_bit_depth := 16, output_channels := 2
    enforce_power_of_two := true, pad_strategy := ("none".toList)
    max_samples_per_chain := 32, dithering := true }

/-- Builder configuration with repeat-last padding and dithering
enabled (the source defaults). -/
def fxCfgDither : BuilderConfig :=
  { fxCfgNone with pad_strategy := ("repeat-last".toList) }

/-- Builder configuration with repeat-last padding and dithering
disabled. -/
def fxCfgNoDither : BuilderConfig :=
  { fxCfgDither with dithering := false }

/-- Fixture hi-hat path ClosedHH A 1.wav. -/
def fxClosedA1 : PyPath := [("ClosedHH A 1.wav".toList)]

/-- Fixture hi-hat path ClosedHH A 2.wav. -/
def fxClosedA2 : PyPath := [("ClosedHH A 2.wav".toList)]

/-- Fixture hi-hat path OpenHH A.wav. -/
def fxOpenA : PyPath := [("OpenHH A.wav".toList)]

/-- Fixture regular path x/y/f.wav. -/
def fxRegF : PyPath := [("x".toList), ("y".toList), ("f.wav".toList)]

/-- Fixture regular path x/y/g.wav. -/
def fxRegG : PyPath := [("x".toList), ("y".toList), ("g.wav".toList)]

/-- Fixture regular path x/y_1/h.wav, whose directory key x/y_1 collides
with the first chunk name of the split group x/y. -/
def fxRegH : PyPath := [("x".toList), ("y_1".toList), ("h.wav".toList)]

/-- Planner configuration with a cap of one sample per chain. -/
def fxPlanCfg1 : PlannerConfig :=
  { max_samples_per_chain := 1, sample_rate := 48000, bit_depth := 16, channels := 2 }

/-- Planner configuration with the default cap of sixteen. -/
def fxPlanCfg16 : PlannerConfig :=
  { max_samples_per_chain := 16, sample_rate := 48000, bit_depth := 16, channels := 2 }

/-- The chain_data dict of the repository's own exporter unit test
(tests/unit/test_audio_processing.py, test_generate_filename): the
metadata carries group_key drums/kick, sample_count 16 and the per-slot
sample_duration 1.5; there is no top-level name key and no
estimated_duration_seconds key. -/
def fxExportTest : ExportChainData :=
  { name := none
    meta_group_key := some ("drums/kick".toList)
    meta_sample_count := some 16
    meta_sample_duration := some (3 / 2)
    meta_estimated_duration_seconds := none }

/-- Chain data in the shape the pipeline hands the exporter (name set
from the plan, the planner's estimated total duration present), with a
per-slot duration of 1.5 seconds and a differing estimated total. -/
def fxExportPipeline : ExportChainData :=
  { name := some ("drums/kick".toList)
    meta_group_key := some ("drums/kick".toList)
    meta_sample_count := some 16
    meta_sample_duration := some (3 / 2)
    meta_estimated_duration_seconds := some 24 }

/-- A loaded one-second file at 96 kHz (4 frames standing in for 96000 in
reduced size: 4 frames at rate 96000 against output rate 48000 behave
like the spec's example, converting to 2 frames). -/
def fxLoaded96k : LoadedAudio :=
  { file_path := fxPathA, audio_data := List.replicate 4 [0, 0], sample_rate := 96000 }

/-- A mono buffer of 7 frames (resampling 7 frames from 44100 to 48000
separates truncation from rounding: 7 * 48000 / 44100 is about 7.619). -/
def fxBuf7 : AudioData := List.replicate 7 [0]

/-- A one-frame three-channel buffer whose channel mean (1) differs from
its first channel (0). -/
def fxBuf3ch : AudioData := [[0, 0, 3]]

/-- The hi-hat classification pass of plan_smart_chains (lines 48-53):
the files recognized as hi-hats, with their kind, in input order. -/
def hihatClassified (files : List PyPath) : List (PyPath × HihatKind) :=
  files.filterMap (fun p =>
    match is_hihat_file p with
    | (true, some t) => some (p, t)
    | _ => none)

/-- The complementary regular-file pass of plan_smart_chains. -/
def regularClassified (files : List PyPath) : List PyPath :=
  files.filter (fun p => ¬ (is_hihat_file p).1)

/-- All files held by one hi-hat base-name group. -/
def groupFiles (g : Str × HGroup) : List PyPath :=
  g.2.closedFiles ++ g.2.openFiles

/-- The key list of an association list. -/
def keysOf {α : Type} (d : List (Str × α)) : List Str := d.map Prod.fst

/-- The files accumulated by the hi-hat emission loop: the files of every
flushed chain followed by the running chain's files. -/
def accFiles (acc : HihatAcc) : List PyPath :=
  acc.chains.flatMap (fun kv => kv.2.files) ++ acc.current_chain_files

/-- The chains one directory bucket contributes to the emission view of
_create_regular_chains: one chain within the cap, else the consecutive
chunk chains. -/
def regularEmitFor (cfg : PlannerConfig) (ai : Str → Option AInfo)
    (kf : Str × List PyPath) : List (Str × PlanChain) :=
  let sorted_files := pySortPaths kf.2
  if sorted_files.length ≤ cfg.max_samples_per_chain then
    [(kf.1, create_chain_from_files cfg sorted_files ai kf.1
      { closed_count := none, open_count := none, hat_names := none
        total_files := sorted_files.length })]
  else
    let num_chains := (sorted_files.length + cfg.max_samples_per_chain - 1) /
      cfg.max_samples_per_chain
    (List.range num_chains).map (fun i =>
      let chain_files := (sorted_files.drop (i * cfg.max_samples_per_chain)).take
        cfg.max_samples_per_chain
      let chain_name := kf.1 ++ ("_".toList) ++ natToStr (i + 1)
      (chain_name, create_chain_from_files cfg chain_files ai chain_name
        { closed_count := none, open_count := none, hat_names := none
          total_files := chain_files.length }))

/-! Support lemmas for the power-of-two claims. -/

/-- Bitwise and of a number with itself. -/
theorem nat_land_self (a : ℕ) : a &&& a = a := by
  apply Nat.eq_of_testBit_eq
  intro i
  simp [Nat.testBit_land]

/-- An even number and its predecessor have bitwise and twice that of the
half and its predecessor. -/
theorem land_even_pred (a : ℕ) (ha : 0 < a) :
    (2 * a) &&& (2 * a - 1) = 2 * (a &&& (a - 1)) := by
  have h1 : 2 * a - 1 = 2 * (a - 1) + 1 := by omega
  have h2 := @Nat.bitwise_bit and rfl false a true (a - 1)
  simp only [Nat.bit, cond] at h2
  rw [h1]
  have e1 : (2 * a) &&& (2 * (a - 1) + 1) = Nat.bitwise and (2 * a) (2 * (a - 1) + 1) := rfl
  have e2 : a &&& (a - 1) = Nat.bitwise and a (a - 1) := rfl
  rw [e1, e2]
  simpa using h2

/-- An odd number and its predecessor have bitwise and equal to the even
part. -/
theorem land_odd_pred (a : ℕ) : (2 * a + 1) &&& (2 * a) = 2 * a := by
  have h2 := @Nat.bitwise_bit and rfl true a false a
  simp only [Nat.bit, cond] at h2
  have e1 : (2 * a + 1) &&& (2 * a) = Nat.bitwise and (2 * a + 1) (2 * a) := rfl
  have e2 : a &&& a = Nat.bitwise and a a := rfl
  rw [e1]
  rw [h2, ← e2, nat_land_self]
  simp

/-- The bit trick n & (n-1) == 0 characterizes the positive powers of
two. -/
theorem land_pred_eq_zero_iff :
    ∀ m : ℕ, 0 < m → ((m &&& (m - 1)) = 0 ↔ ∃ k : ℕ, m = 2 ^ k) := by
  intro m
  induction m using Nat.strong_induction_on with
  | _ m IH =>
    intro hm
    rcases Nat.even_or_odd m with ⟨a, ha⟩ | ⟨a, ha⟩
    · have hm2 : m = 2 * a := by omega
      have ha0 : 0 < a := by omega
      subst hm2
      rw [land_even_pred a ha0]
      have hlt : a < 2 * a := by omega
      rw [Nat.mul_eq_zero]
      constructor
      · rintro (h2 | h0)
        · omega
        · obtain ⟨k, hk⟩ := (IH a hlt ha0).mp h0
          exact ⟨k + 1, by rw [hk]; ring⟩
      · rintro ⟨k, hk⟩
        match k with
        | 0 => omega
        | k + 1 =>
          right
          apply (IH a hlt ha0).mpr
          refine ⟨k, ?_⟩
          have h2 : 2 * a = 2 * 2 ^ k := by rw [hk]; ring
          omega
    · subst ha
      rw [show 2 * a + 1 - 1 = 2 * a by omega, land_odd_pred]
      constructor
      · intro h
        exact ⟨0, by omega⟩
      · rintro ⟨k, hk⟩
        match k with
        | 0 => omega
        | k + 1 =>
          exfalso
          have : (2 : ℕ) ∣ 2 ^ (k + 1) := dvd_pow_self 2 (Nat.succ_ne_zero k)
          omega

/-- Bitwise and of two integer liftings of naturals is the lifting of the
natural bitwise and (immediate from the constructor form of Int.land). -/
theorem int_land_coe (a b : ℕ) :
    Int.land (a : ℤ) (b : ℤ) = ((a &&& b : ℕ) : ℤ) := rfl

/-- Characterization of is_power_of_two over the integers. -/
theorem is_power_of_two_iff (n : ℤ) :
    is_power_of_two n = true ↔ ∃ k : ℕ, n = 2 ^ k := by
  unfold is_power_of_two
  rcases le_or_lt n 0 with hle | hpos
  · simp only [Bool.and_eq_true, decide_eq_true_eq]
    constructor
    · rintro ⟨h, _⟩; omega
    · rintro ⟨k, hk⟩
      exfalso
      have : (0 : ℤ) < 2 ^ k := by positivity
      omega
  · lift n to ℕ using hpos.le with m
    have hm : 0 < m := by exact_mod_cast hpos
    have hsub : ((m : ℤ) - 1) = ((m - 1 : ℕ) : ℤ) := by omega
    rw [hsub, int_land_coe]
    simp only [Bool.and_eq_true, decide_eq_true_eq, beq_iff_eq]
    constructor
    · rintro ⟨_, h⟩
      have h0 : m &&& (m - 1) = 0 := by exact_mod_cast h
      obtain ⟨k, hk⟩ := (land_pred_eq_zero_iff m hm).mp h0
      exact ⟨k, by rw [hk]; push_cast; ring⟩
    · rintro ⟨k, hk⟩
      have hmk : m = 2 ^ k := by exact_mod_cast hk
      refine ⟨by exact_mod_cast hpos, ?_⟩
      rw [(land_pred_eq_zero_iff m hm).mpr ⟨k, hmk⟩]
      simp

/-- Loop invariant of nextPowLoop: entered with a power of two all of whose
smaller powers of two are below n, it returns the least power of two that
is at least n. -/
theorem nextPowLoop_spec (n power : ℕ) (hp : 0 < power) :
    (∃ j, power = 2 ^ j) → (∀ i, 2 ^ i < power → 2 ^ i < n) →
    (∃ k, nextPowLoop n power hp = 2 ^ k) ∧
      n ≤ nextPowLoop n power hp ∧
      ∀ m, n ≤ 2 ^ m → nextPowLoop n power hp ≤ 2 ^ m := by
  induction power, hp using nextPowLoop.induct n with
  | case1 power hp hlt IH =>
    intro hpow hbelow
    obtain ⟨j, hj⟩ := hpow
    rw [nextPowLoop, dif_pos hlt]
    apply IH
    · exact ⟨j + 1, by rw [hj]; ring⟩
    · intro i hi
      rcases lt_or_le (2 ^ i) power with h | h
      · exact hbelow i h
      · have : 2 ^ i < 2 * 2 ^ j := by rw [← hj]; omega
        have hij : i ≤ j := by
          by_contra hc
          have : 2 ^ (j + 1) ≤ 2 ^ i := Nat.pow_le_pow_right (by omega) (by omega)
          have : 2 * 2 ^ j ≤ 2 ^ i := by
            calc 2 * 2 ^ j = 2 ^ (j + 1) := by ring
            _ ≤ 2 ^ i := this
          omega
        have : 2 ^ i ≤ 2 ^ j := Nat.pow_le_pow_right (by omega) hij
        omega
  | case2 power hp hge =>
    intro hpow hbelow
    rw [nextPowLoop, dif_neg hge]
    refine ⟨hpow, by omega, ?_⟩
    intro m hm
    by_contra hc
    have h1 : 2 ^ m < power := by omega
    have := hbelow m h1
    omega

/-- nextPow2 returns a power of two at least n, minimal among powers of two
at least n. -/
theorem nextPow2_spec (n : ℕ) :
    (∃ k, nextPow2 n = 2 ^ k) ∧ n ≤ nextPow2 n ∧
      ∀ m, n ≤ 2 ^ m → nextPow2 n ≤ 2 ^ m := by
  have := nextPowLoop_spec n 1 (by omega) ⟨0, rfl⟩ (by intro i hi; exfalso; have := Nat.one_le_two_pow (n := i); omega)
  exact this

/-! ## Helper lemmas about list maxima -/

/-- Folding max from any seed splits into max of the seed and the zero-seed
fold. -/
theorem foldl_max_eq (l : List ℕ) : ∀ a : ℕ, l.foldl max a = max a (listMaxNat l) := by
  induction l with
  | nil => intro a; simp [listMaxNat]
  | cons x t IH =>
    intro a
    have hx : listMaxNat (x :: t) = max x (listMaxNat t) := by
      show (x :: t).foldl max 0 = max x (listMaxNat t)
      rw [List.foldl_cons, IH (max 0 x)]
      omega
    rw [List.foldl_cons, IH (max a x), hx]
    omega

/-- Maximum of a nonempty-headed list. -/
theorem listMaxNat_cons (x : ℕ) (l : List ℕ) :
    listMaxNat (x :: l) = max x (listMaxNat l) := by
  show (x :: l).foldl max 0 = max x (listMaxNat l)
  rw [List.foldl_cons, foldl_max_eq]
  omega

/-- The converted length a differing-rate file contributes to the target
length fold. -/
def convLen (cfg : BuilderConfig) (a : LoadedAudio) : ℕ :=
  a.audio_data.length * cfg.output_sample_rate / a.sample_rate

/-- The converted lengths of the files whose rate differs from the output
rate. -/
def convLens (cfg : BuilderConfig) (files : List LoadedAudio) : List ℕ :=
  files.filterMap (fun a =>
    if a.sample_rate ≠ cfg.output_sample_rate then some (convLen cfg a) else none)

/-- The second pass of _get_target_sample_length folds the converted
lengths of the differing-rate files into the seed. -/
theorem target_fold_eq (cfg : BuilderConfig) (files : List LoadedAudio) :
    ∀ init : ℕ,
      files.foldl (fun acc a =>
        if a.sample_rate ≠ cfg.output_sample_rate then
          max acc (a.audio_data.length * cfg.output_sample_rate / a.sample_rate)
        else acc) init = max init (listMaxNat (convLens cfg files)) := by
  induction files with
  | nil => intro init; simp [convLens, listMaxNat]
  | cons a t IH =>
    intro init
    rw [List.foldl_cons]
    by_cases h : a.sample_rate ≠ cfg.output_sample_rate
    · rw [if_pos h, IH]
      have : convLens cfg (a :: t) = convLen cfg a :: convLens cfg t := by
        simp [convLens, h]
      rw [this, listMaxNat_cons]
      unfold convLen
      omega
    · rw [if_neg h, IH]
      have : convLens cfg (a :: t) = convLens cfg t := by
        simp [convLens, h]
      rw [this]

/-- The one-pass maximum of codeTargetSampleLength splits into the raw
maximum and the converted maximum. -/
theorem codeTarget_split (cfg : BuilderConfig) (files : List LoadedAudio) :
    codeTargetSampleLength cfg files =
      max (listMaxNat (files.map (fun a => a.audio_data.length)))
        (listMaxNat (convLens cfg files)) := by
  induction files with
  | nil => simp [codeTargetSampleLength, convLens, listMaxNat]
  | cons a t IH =>
    unfold codeTargetSampleLength at IH ⊢
    rw [List.map_cons, listMaxNat_cons, IH, List.map_cons, listMaxNat_cons]
    by_cases h : a.sample_rate ≠ cfg.output_sample_rate
    · have : convLens cfg (a :: t) = convLen cfg a :: convLens cfg t := by
        simp [convLens, h]
      rw [if_pos h, this, listMaxNat_cons]
      unfold convLen
      omega
    · have : convLens cfg (a :: t) = convLens cfg t := by
        simp [convLens, h]
      rw [if_neg h, this]
      omega

/-- C3, corrected: the per-slot frame count _get_target_sample_length
computes is the maximum over the files of the raw length together with,
for every file at a different rate, the truncated converted length
int(len * outputRate / rate) — so, contrary to the claim, the raw
(pre-resampling) length of every file, including files at a different
rate, does enter the maximum. -/
theorem C3_theorem (cfg : BuilderConfig) (files : List LoadedAudio) :
    get_target_sample_length cfg files = codeTargetSampleLength cfg files := by
  unfold get_target_sample_length
  rw [target_fold_eq, codeTarget_split]

/-- C3, counterexample to the claim as stated: a single one-second file at
96 kHz (4 frames at rate 96000 against output rate 48000, in reduced
size).  The resampled length is 2, and the claim says the per-slot count
equals the maximum of resampled lengths, hence 2; the code returns the raw
length 4 because the raw length participates in the maximum. -/
theorem C3_counterexample :
    get_target_sample_length fxCfgDither [fxLoaded96k] = 4 ∧
      specTargetSampleLength fxCfgDither [fxLoaded96k] = 2 ∧ (4 : ℕ) ≠ 2 := by
  decide

/-! ## C4: convert_sample_rate shape -/

/-- C4, corrected: convert_sample_rate is the identity when the rates
match, and otherwise produces a buffer of exactly
int(originalLength * targetRate / originalRate) frames — truncation
(floor), not round — with the channel count preserved on every frame.
The positivity hypothesis on the current rate mirrors the domain of the
Python division. -/
theorem C4_theorem (rs : ℕ → List ℚ → ℕ → ℚ) (data : AudioData) (cr tr : ℕ)
    (hcr : 0 < cr) :
    (cr = tr → convert_sample_rate rs data cr tr = data) ∧
    (cr ≠ tr →
      (convert_sample_rate rs data cr tr).length = data.length * tr / cr ∧
      ∀ row ∈ convert_sample_rate rs data cr tr, row.length = numChannels data) := by
  constructor
  · intro h
    subst h
    simp [convert_sample_rate]
  · intro h
    unfold convert_sample_rate
    rw [if_neg (by simpa using h)]
    constructor
    · simp
    · intro row hrow
      simp only [List.mem_map, List.mem_range] at hrow
      obtain ⟨i, _, rfl⟩ := hrow
      simp

/-- C4, counterexample to the round claim: 7 frames resampled from
44100 Hz to 48000 Hz give round(7 * 48000 / 44100) = 8 frames per the
claim, but the code computes int(7 * 48000 / 44100) = 7 frames. -/
theorem C4_counterexample :
    round ((7 * 48000 : ℚ) / 44100) = 8 ∧
      (convert_sample_rate zeroResample fxBuf7 44100 48000).length = 7 ∧ (7 : ℕ) ≠ 8 := by
  refine ⟨?_, by decide, by decide⟩
  rw [round_eq]
  norm_num

/-- C4, witness: the theorem applied to the 7-frame fixture at rates
44100 and 48000. -/
theorem C4_witness :
    convert_sample_rate zeroResample fxBuf7 48000 48000 = fxBuf7 ∧
      (convert_sample_rate zeroResample fxBuf7 44100 48000).length =
        fxBuf7.length * 48000 / 44100 ∧
      ∀ row ∈ convert_sample_rate zeroResample fxBuf7 44100 48000,
        row.length = numChannels fxBuf7 := by
  refine ⟨(C4_theorem zeroResample fxBuf7 48000 48000 (by norm_num)).1 rfl, ?_, ?_⟩
  · exact ((C4_theorem zeroResample fxBuf7 44100 48000 (by norm_num)).2 (by norm_num)).1
  · exact ((C4_theorem zeroResample fxBuf7 44100 48000 (by norm_num)).2 (by norm_num)).2

/-! ## C5: power-of-two helpers -/

/-- C5, confirmed: is_power_of_two holds exactly on the powers of two
1, 2, 4, 8, ...; get_next_power_of_two returns 1 on every nonpositive
input, and on positive input the least power of two at least the
input. -/
theorem C5_theorem :
    (∀ n : ℤ, is_power_of_two n = true ↔ ∃ k : ℕ, n = 2 ^ k) ∧
    (∀ n : ℤ, n ≤ 0 → get_next_power_of_two n = 1) ∧
    (∀ n : ℤ, 0 < n →
      (∃ k : ℕ, get_next_power_of_two n = 2 ^ k) ∧
      n ≤ get_next_power_of_two n ∧
      ∀ m : ℤ, (∃ k : ℕ, m = 2 ^ k) → n ≤ m → get_next_power_of_two n ≤ m) := by
  refine ⟨is_power_of_two_iff, ?_, ?_⟩
  · intro n hn
    unfold get_next_power_of_two
    rw [if_pos hn]
  · intro n hn
    unfold get_next_power_of_two
    rw [if_neg (by omega)]
    obtain ⟨⟨k, hk⟩, hle, hmin⟩ := nextPow2_spec n.toNat
    refine ⟨⟨k, by exact_mod_cast hk⟩, by omega, ?_⟩
    rintro m ⟨j, rfl⟩ hnm
    have hcast : ((2 : ℤ) ^ j) = ((2 ^ j : ℕ) : ℤ) := by push_cast; ring
    have h2 : n ≤ ((2 ^ j : ℕ) : ℤ) := by rw [← hcast]; exact hnm
    have h1 : n.toNat ≤ 2 ^ j := by omega
    have h3 := hmin j h1
    omega

/-- C5, witness: the theorem instantiated at 16 (a power of two), -3
(nonpositive input) and 5 (least power of two above is 8). -/
theorem C5_witness :
    is_power_of_two 16 = true ∧ get_next_power_of_two (-3) = 1 ∧
      (5 : ℤ) ≤ get_next_power_of_two 5 ∧ get_next_power_of_two 5 ≤ 8 := by
  refine ⟨(C5_theorem.1 16).mpr ⟨4, by norm_num⟩,
    C5_theorem.2.1 (-3) (by norm_num),
    (C5_theorem.2.2 5 (by norm_num)).2.1,
    (C5_theorem.2.2 5 (by norm_num)).2.2 8 ⟨3, by norm_num⟩ (by norm_num)⟩

/-! ## C6: convert_channels -/

/-- C6, corrected: the mono conversion averages the channels only when
the source has exactly two; a source with more than two channels is
reduced to its first channel alone (not the mean).  Mono to stereo
duplicates, more than two channels to stereo takes the first two, and
any other target differing from the current count is rejected. -/
theorem C6_theorem (data : AudioData) (cur tgt : ℕ) :
    (cur = 2 → tgt = 1 →
      convert_channels data cur tgt = .ok (data.map (fun row => [rowMean row]))) ∧
    (2 < cur → tgt = 1 →
      convert_channels data cur tgt = .ok (data.map (fun row => row.take 1))) ∧
    (cur = 1 → tgt = 2 →
      convert_channels data cur tgt = .ok (data.map (fun row => [row.getD 0 0, row.getD 0 0]))) ∧
    (2 < cur → tgt = 2 →
      convert_channels data cur tgt = .ok (data.map (fun row => row.take 2))) ∧
    (tgt ≠ 1 → tgt ≠ 2 → tgt ≠ cur →
      convert_channels data cur tgt =
        .error (("Unsupported target channel count: ".toList) ++ natToStr tgt)) := by
  refine ⟨?_, ?_, ?_, ?_, ?_⟩
  · rintro rfl rfl
    simp [convert_channels]
  · rintro hcur rfl
    have h1 : (cur == 1) = false := by simp; omega
    have h2 : (cur == 2) = false := by simp; omega
    simp [convert_channels, h1, h2]
  · rintro rfl rfl
    simp [convert_channels]
  · rintro hcur rfl
    have h1 : (cur == 2) = false := by simp; omega
    have h2 : (cur == 1) = false := by simp; omega
    simp [convert_channels, h1, h2]
  · rintro h1 h2 h3
    have g1 : (cur == tgt) = false := by simp; omega
    have g2 : (tgt == 1) = false := by simp; omega
    have g3 : (tgt == 2) = false := by simp; omega
    simp [convert_channels, g1, g2, g3]

/-- C6, counterexample to the mean claim: a three-channel frame [0, 0, 3]
has channel mean 1, but the code returns its first channel 0. -/
theorem C6_counterexample :
    convert_channels fxBuf3ch 3 1 = .ok [[0]] ∧ rowMean [0, 0, 3] = 1 ∧
      convert_channels fxBuf3ch 3 1 ≠ .ok [[rowMean [0, 0, 3]]] := by
  decide

/-- C6, witness: the theorem applied at a stereo frame (mean), the
three-channel fixture (first channel), a mono frame (duplication), the
three-channel fixture to stereo (first two channels), and a five-channel
target (error). -/
theorem C6_witness :
    convert_channels [[1, 3]] 2 1 = .ok [[rowMean [1, 3]]] ∧
      convert_channels fxBuf3ch 3 1 = .ok (fxBuf3ch.map (fun row => row.take 1)) ∧
      convert_channels [[7]] 1 2 = .ok [[7, 7]] ∧
      convert_channels fxBuf3ch 3 2 = .ok (fxBuf3ch.map (fun row => row.take 2)) ∧
      convert_channels fxBuf3ch 3 5 =
        .error (("Unsupported target channel count: ".toList) ++ natToStr 5) := by
  refine ⟨(C6_theorem [[1, 3]] 2 1).1 rfl rfl,
    (C6_theorem fxBuf3ch 3 1).2.1 (by norm_num) rfl, ?_,
    (C6_theorem fxBuf3ch 3 2).2.2.2.1 (by norm_num) rfl,
    (C6_theorem fxBuf3ch 3 5).2.2.2.2 (by norm_num) (by norm_num) (by norm_num)⟩
  have h := (C6_theorem [[7]] 1 2).2.2.1 rfl rfl
  simpa using h

/-! ## C9: exporter filename -/

/-- C9: evaluation of the embedded _generate_filename at the failing
input of the repository's own unit test (metadata holding group_key
drums/kick, sample_count 16, per-slot duration 1.5): the code reads the
absent top-level name key and the absent estimated_duration_seconds key,
so it produces unknown-16-0.000s, not the drums-kick-16-1.500s the test
and the claim state; even with the pipeline's name key present the
duration component is the planner's estimated total (here 24.0), not the
per-slot duration. -/
theorem C9_theorem :
    generate_filename fxExportTest = ("unknown-16-0.000s".toList) ∧
      generate_filename fxExportPipeline = ("drums-kick-16-24.000s".toList) ∧
      generate_filename fxExportTest ≠ ("drums-kick-16-1.500s".toList) ∧
      generate_filename fxExportPipeline ≠ ("drums-kick-16-1.500s".toList) := by
  decide

/-! ## Shape lemmas for the chain pipeline -/

/-- Every normalized slot has exactly the target length (padding with
zeros or truncation both land on target_length). -/
theorem normalize_length (rs : ℕ → List ℚ → ℕ → ℚ) (cfg : BuilderConfig)
    (fs : List LoadedAudio) (L : ℕ) :
    ∀ x ∈ normalize_sample_lengths rs cfg fs L, x.length = L := by
  intro x hx
  simp only [normalize_sample_lengths, List.mem_map] at hx
  obtain ⟨a, _, rfl⟩ := hx
  split_ifs with h1 h2 <;>
    simp_all [List.length_append, List.length_replicate, List.length_take] <;> omega

/-- The padded slot list has exactly the target count for the repeat-last
and silence strategies (and whenever no padding was needed). -/
theorem pad_length (cfg : BuilderConfig) (samples : List AudioData) (t : ℕ)
    (h : samples.length ≥ t ∨ cfg.pad_strategy = ("repeat-last".toList) ∨
      cfg.pad_strategy = ("silence".toList)) :
    (pad_samples_to_power_of_two cfg samples t).length = t := by
  unfold pad_samples_to_power_of_two
  by_cases h1 : samples.length ≥ t
  · rw [if_pos h1]
    simp [List.length_take]
    omega
  · rw [if_neg h1]
    rcases h with h | h | h
    · omega
    · rw [if_pos (by rw [h]; rfl)]
      simp [List.length_append, List.length_replicate]
      omega
    · rw [if_neg (by rw [h]; decide), if_pos (by rw [h]; rfl)]
      simp [List.length_append, List.length_replicate]
      omega

/-- Padding preserves the uniform slot length: every slot of the padded
list still has length L when every input slot does and the input list is
nonempty. -/
theorem pad_members (cfg : BuilderConfig) (samples : List AudioData) (t L : ℕ)
    (hne : samples ≠ []) (hall : ∀ s ∈ samples, s.length = L) :
    ∀ x ∈ pad_samples_to_power_of_two cfg samples t, x.length = L := by
  intro x hx
  unfold pad_samples_to_power_of_two at hx
  split_ifs at hx with h1 h2 h3
  · exact hall x (List.mem_of_mem_take hx)
  · rcases List.mem_append.mp hx with h | h
    · exact hall x h
    · have hx2 := List.eq_of_mem_replicate h
      subst hx2
      rw [List.getLast?_eq_getLast samples hne]
      exact hall _ (List.getLast_mem hne)
  · rcases List.mem_append.mp hx with h | h
    · exact hall x h
    · have hx2 := List.eq_of_mem_replicate h
      subst hx2
      have hh : samples.head?.getD [] = samples.head hne := by
        rw [List.head?_eq_head hne]
        rfl
      rw [hh]
      show (silenceLike (samples.head hne)).length = L
      simp [silenceLike]
      exact hall _ (List.head_mem hne)
  · exact hall x hx

/-- convert_channels preserves the frame count. -/
theorem convert_channels_ok_length (d : AudioData) (cc tc : ℕ) (c : AudioData)
    (h : convert_channels d cc tc = .ok c) : c.length = d.length := by
  unfold convert_channels at h
  split_ifs at h <;> cases h <;> simp

/-- convert_bit_depth preserves the frame count. -/
theorem convert_bit_depth_ok_length (nz : ℕ → ℕ → ℚ) (dith : Bool)
    (d : AudioData) (cb tb : ℕ) (c : AudioData)
    (h : convert_bit_depth nz dith d cb tb = .ok c) : c.length = d.length := by
  unfold convert_bit_depth at h
  split_ifs at h <;> cases h <;> simp

/-- convert_audio preserves the frame count when no resampling happens
(the builder passes the output rate as both current and target rate). -/
theorem convert_audio_ok_length (rs : ℕ → List ℚ → ℕ → ℚ) (nz : ℕ → ℕ → ℚ)
    (dith : Bool) (s : AudioData) (R cb cc tb tc : ℕ) (c : AudioData)
    (h : convert_audio rs nz dith s R cb cc R tb tc = .ok c) : c.length = s.length := by
  unfold convert_audio at h
  simp only [beq_self_eq_true, not_true, if_false] at h
  by_cases hcc : (cc == tc) = true
  · rw [if_neg (by simp [hcc])] at h
    try simp only [Except.bind, bind] at h
    by_cases hcb : (cb == tb) = true
    · rw [if_neg (by simp [hcb])] at h
      try simp only [Except.bind, bind] at h
      cases h
      rfl
    · rw [if_pos (by simp [hcb])] at h
      cases hB : convert_bit_depth nz dith s cb tb with
      | error e => rw [hB] at h; simp [Except.bind, bind] at h
      | ok c3 =>
        rw [hB] at h
        try simp only [Except.bind, bind] at h
        cases h
        exact convert_bit_depth_ok_length nz dith s cb tb _ hB
  · rw [if_pos (by simp [hcc])] at h
    cases hA : convert_channels s cc tc with
    | error e => rw [hA] at h; simp [Except.bind, bind] at h
    | ok c2 =>
      rw [hA] at h
      try simp only [Except.bind, bind] at h
      by_cases hcb : (cb == tb) = true
      · rw [if_neg (by simp [hcb])] at h
        try simp only [Except.bind, bind] at h
        cases h
        exact convert_channels_ok_length s cc tc _ hA
      · rw [if_pos (by simp [hcb])] at h
        cases hB : convert_bit_depth nz dith c2 cb tb with
        | error e => rw [hB] at h; simp [Except.bind, bind] at h
        | ok c3 =>
          rw [hB] at h
          try simp only [Except.bind, bind] at h
          cases h
          have l3 := convert_bit_depth_ok_length nz dith c2 cb tb _ hB
          have l2 := convert_channels_ok_length s cc tc _ hA
          omega

/-- convertSlots preserves the slot count and the uniform slot length. -/
theorem convertSlots_lengths (rs : ℕ → List ℚ → ℕ → ℚ) (nzF : ℕ → ℕ → ℕ → ℚ)
    (cfg : BuilderConfig) (L : ℕ) :
    ∀ (samples : List AudioData) (i : ℕ) (cs : List AudioData),
      (∀ s ∈ samples, s.length = L) →
      convertSlots rs nzF cfg i samples = .ok cs →
      cs.length = samples.length ∧ ∀ c ∈ cs, c.length = L := by
  intro samples
  induction samples with
  | nil =>
    intro i cs _ h
    cases h
    simp
  | cons s rest IH =>
    intro i cs hall h
    unfold convertSlots at h
    cases hA : convert_audio rs (nzF i) cfg.dithering s cfg.output_sample_rate 32
        (numChannels s) cfg.output_sample_rate cfg.output_bit_depth cfg.output_channels with
    | error e => rw [hA] at h; simp [Except.bind, bind] at h
    | ok c =>
      rw [hA] at h
      try simp only [Except.bind, bind] at h
      cases hB : convertSlots rs nzF cfg (i + 1) rest with
      | error e => rw [hB] at h; simp [Except.bind, bind] at h
      | ok cs' =>
        rw [hB] at h
        try simp only [Except.bind, bind] at h
        cases h
        have hc : c.length = L := by
          rw [convert_audio_ok_length _ _ _ _ _ _ _ _ _ _ hA]
          exact hall s (by simp)
        obtain ⟨hlen, hmem⟩ := IH (i + 1) cs' (fun x hx => hall x (by simp [hx])) hB
        refine ⟨by simp [hlen], ?_⟩
        intro x hx
        rcases List.mem_cons.mp hx with rfl | hx
        · exact hc
        · exact hmem x hx

/-- Concatenating n slots of uniform length L yields n * L frames. -/
theorem concat_length (L : ℕ) (cs : List AudioData) (h : ∀ c ∈ cs, c.length = L) :
    (concatenate_samples cs).length = cs.length * L := by
  induction cs with
  | nil => simp [concatenate_samples]
  | cons c rest IH =>
    have hc : c.length = L := h c (by simp)
    have hr := IH (fun x hx => h x (by simp [hx]))
    simp only [concatenate_samples, List.flatMap_cons, List.length_append, id] at *
    rw [hr, hc]
    simp [List.length_cons]
    ring

/-- A successful load yields a nonempty file list (the guard of
_load_audio_files). -/
theorem load_audio_files_ok_ne (loader : PyPath → Option (AudioData × ℕ))
    (paths : List PyPath) (fs : List LoadedAudio)
    (h : load_audio_files loader paths = .ok fs) : fs ≠ [] := by
  simp only [load_audio_files] at h
  by_cases hg : (paths.filterMap (fun p =>
      (loader p).map (fun dr => LoadedAudio.mk p dr.1 dr.2))).isEmpty
  · rw [if_pos hg] at h
    cases h
  · rw [if_neg hg] at h
    injection h with h2
    subst h2
    intro hnil
    rw [hnil] at hg
    exact hg rfl

/-! ## C1: assembly invariant -/

/-- C1, corrected: for every successfully built chain whose pad strategy
is repeat-last or silence, the concatenated audio holds exactly
sample_count * sample_length frames.  (Under the pad strategy none the
returned sample_count is still the padded power-of-two target while no
padding slot is appended, so the invariant fails there; see the
counterexample.) -/
theorem C1_theorem (rs : ℕ → List ℚ → ℕ → ℚ) (nzF : ℕ → ℕ → ℕ → ℚ)
    (loader : PyPath → Option (AudioData × ℕ)) (cfg : BuilderConfig)
    (paths : List PyPath) (gk : Str) (r : ChainResult)
    (hpad : cfg.pad_strategy = ("repeat-last".toList) ∨
      cfg.pad_strategy = ("silence".toList))
    (hok : build_sample_chain rs nzF loader cfg paths gk = .ok r) :
    r.audio_data.length = r.sample_count * r.sample_length := by
  unfold build_sample_chain at hok
  by_cases hemp : paths.isEmpty
  · rw [if_pos hemp] at hok
    cases hok
  · rw [if_neg hemp] at hok
    cases hload : load_audio_files loader paths with
    | error e => rw [hload] at hok; cases hok
    | ok fs =>
      rw [hload] at hok
      have hfs_ne : fs ≠ [] := load_audio_files_ok_ne loader paths fs hload
      try simp only [bind, Except.bind] at hok
      cases hconv : convertSlots rs nzF cfg 0
          (pad_samples_to_power_of_two cfg
            (normalize_sample_lengths rs cfg fs (get_target_sample_length cfg fs))
            (get_final_sample_count cfg
              (normalize_sample_lengths rs cfg fs (get_target_sample_length cfg fs)).length)) with
      | error e => rw [hconv] at hok; cases hok
      | ok cs =>
        rw [hconv] at hok
        cases hok
        have hnorm := normalize_length rs cfg fs (get_target_sample_length cfg fs)
        have hnorm_ne : normalize_sample_lengths rs cfg fs (get_target_sample_length cfg fs) ≠ [] := by
          simp [normalize_sample_lengths]
          exact hfs_ne
        have hpadlen := pad_length cfg
          (normalize_sample_lengths rs cfg fs (get_target_sample_length cfg fs))
          (get_final_sample_count cfg
            (normalize_sample_lengths rs cfg fs (get_target_sample_length cfg fs)).length)
          (Or.inr hpad)
        have hpadmem := pad_members cfg
          (normalize_sample_lengths rs cfg fs (get_target_sample_length cfg fs))
          (get_final_sample_count cfg
            (normalize_sample_lengths rs cfg fs (get_target_sample_length cfg fs)).length)
          (get_target_sample_length cfg fs) hnorm_ne hnorm
        obtain ⟨hcslen, hcsmem⟩ := convertSlots_lengths rs nzF cfg
          (get_target_sample_length cfg fs) _ 0 cs hpadmem hconv
        show (concatenate_samples cs).length = _ * get_target_sample_length cfg fs
        rw [concat_length (get_target_sample_length cfg fs) cs hcsmem, hcslen, hpadlen]

/-- C1, counterexample to the claim as stated: three one-frame files with
pad strategy none and power-of-two enforcement give a chain whose
returned sample_count is 4 and sample_length is 1, but whose audio holds
only the 3 unpadded frames: 3 is not 4 * 1. -/
theorem C1_counterexample :
    ((build_sample_chain zeroResample zeroNoise fxLoader fxCfgNone
        [fxPathA, fxPathB, fxPathC] ("g".toList)).toOption.map
      (fun r => (r.audio_data.length, r.sample_count, r.sample_length))) =
        some (3, 4, 1) ∧ 3 ≠ 4 * 1 := by
  decide

/-- C1, witness: the theorem applied to a concrete three-file build with
repeat-last padding. -/
theorem C1_witness :
    ((build_sample_chain zeroResample zeroNoise fxLoader fxCfgDither
        [fxPathA, fxPathB, fxPathC] ("g".toList)).toOption.map
      (fun r => decide (r.audio_data.length = r.sample_count * r.sample_length))) =
      some true := by
  cases hok : build_sample_chain zeroResample zeroNoise fxLoader fxCfgDither
      [fxPathA, fxPathB, fxPathC] ("g".toList) with
  | error e =>
    exfalso
    have hs : (build_sample_chain zeroResample zeroNoise fxLoader fxCfgDither
        [fxPathA, fxPathB, fxPathC] ("g".toList)).toOption.isSome = true := by decide
    rw [hok] at hs
    simp [Except.toOption] at hs
  | ok r =>
    have hlen := C1_theorem zeroResample zeroNoise fxLoader fxCfgDither
      [fxPathA, fxPathB, fxPathC] ("g".toList) r (Or.inl rfl) hok
    simp [Except.toOption, hlen]

/-! ## C8: per-file load failure handling -/

/-- convert_channels succeeds on every buffer when the target channel
count is 1 or 2. -/
theorem convert_channels_ok_exists (d : AudioData) (cc tc : ℕ)
    (h : tc = 1 ∨ tc = 2) : ∃ c, convert_channels d cc tc = .ok c := by
  rcases h with rfl | rfl <;> unfold convert_channels <;> split_ifs <;>
    first | exact ⟨_, rfl⟩ | simp_all

/-- convert_bit_depth succeeds on every buffer when the target bit depth
is 16, 24 or 32. -/
theorem convert_bit_depth_ok_exists (nz : ℕ → ℕ → ℚ) (dith : Bool)
    (d : AudioData) (cb tb : ℕ) (h : tb = 16 ∨ tb = 24 ∨ tb = 32) :
    ∃ c, convert_bit_depth nz dith d cb tb = .ok c := by
  rcases h with rfl | rfl | rfl <;> unfold convert_bit_depth <;> split_ifs <;>
    first | exact ⟨_, rfl⟩ | simp_all

/-- convert_audio succeeds for a valid output format (channels 1 or 2 and
bit depth 16, 24 or 32), the rates being equal as in the builder. -/
theorem convert_audio_ok_exists (rs : ℕ → List ℚ → ℕ → ℚ) (nz : ℕ → ℕ → ℚ)
    (dith : Bool) (s : AudioData) (R cb cc tb tc : ℕ)
    (hc : tc = 1 ∨ tc = 2) (hb : tb = 16 ∨ tb = 24 ∨ tb = 32) :
    ∃ c, convert_audio rs nz dith s R cb cc R tb tc = .ok c := by
  unfold convert_audio
  simp only [beq_self_eq_true, not_true, if_false]
  by_cases hcc : (cc == tc) = true
  · rw [if_neg (by simp [hcc])]
    try simp only [bind, Except.bind]
    by_cases hcb : (cb == tb) = true
    · rw [if_neg (by simp [hcb])]
      exact ⟨_, rfl⟩
    · rw [if_pos (by simp [hcb])]
      obtain ⟨c3, hc3⟩ := convert_bit_depth_ok_exists nz dith s cb tb hb
      rw [hc3]
      exact ⟨_, rfl⟩
  · rw [if_pos (by simp [hcc])]
    obtain ⟨c2, hc2⟩ := convert_channels_ok_exists s cc tc hc
    rw [hc2]
    try simp only [bind, Except.bind]
    by_cases hcb : (cb == tb) = true
    · rw [if_neg (by simp [hcb])]
      exact ⟨_, rfl⟩
    · rw [if_pos (by simp [hcb])]
      obtain ⟨c3, hc3⟩ := convert_bit_depth_ok_exists nz dith c2 cb tb hb
      rw [hc3]
      exact ⟨_, rfl⟩

/-- convertSlots succeeds on every slot list for a valid output format. -/
theorem convertSlots_ok_exists (rs : ℕ → List ℚ → ℕ → ℚ) (nzF : ℕ → ℕ → ℕ → ℚ)
    (cfg : BuilderConfig)
    (hc : cfg.output_channels = 1 ∨ cfg.output_channels = 2)
    (hb : cfg.output_bit_depth = 16 ∨ cfg.output_bit_depth = 24 ∨ cfg.output_bit_depth = 32) :
    ∀ (samples : List AudioData) (i : ℕ), ∃ cs, convertSlots rs nzF cfg i samples = .ok cs := by
  intro samples
  induction samples with
  | nil => intro i; exact ⟨[], rfl⟩
  | cons s rest IH =>
    intro i
    obtain ⟨c, hcv⟩ := convert_audio_ok_exists rs (nzF i) cfg.dithering s
      cfg.output_sample_rate 32 (numChannels s) cfg.output_bit_depth cfg.output_channels hc hb
    obtain ⟨cs', hrest⟩ := IH (i + 1)
    refine ⟨c :: cs', ?_⟩
    unfold convertSlots
    rw [hcv]
    try simp only [bind, Except.bind]
    rw [hrest]

/-- C8, confirmed: an individual file whose load fails is skipped (the
loaded list is exactly the filterMap of the loader over the input paths,
in order), and the build still succeeds when at least one file loads and
the configured output format is valid; when every file in the group fails
to load the whole build fails with the single no-loadable-files error and
no chain is returned. -/
theorem C8_theorem (rs : ℕ → List ℚ → ℕ → ℚ) (nzF : ℕ → ℕ → ℕ → ℚ)
    (loader : PyPath → Option (AudioData × ℕ)) (cfg : BuilderConfig)
    (paths : List PyPath) (gk : Str) :
    (paths ≠ [] → (∀ p ∈ paths, loader p = none) →
      build_sample_chain rs nzF loader cfg paths gk =
        .error ("No audio files could be loaded".toList)) ∧
    ((∃ p ∈ paths, (loader p).isSome) →
      load_audio_files loader paths =
        .ok (paths.filterMap (fun p =>
          (loader p).map (fun dr => LoadedAudio.mk p dr.1 dr.2))) ∧
      ((cfg.output_channels = 1 ∨ cfg.output_channels = 2) →
        (cfg.output_bit_depth = 16 ∨ cfg.output_bit_depth = 24 ∨ cfg.output_bit_depth = 32) →
        ∃ r, build_sample_chain rs nzF loader cfg paths gk = .ok r)) := by
  constructor
  · intro hne hall
    have hfm : paths.filterMap (fun p =>
        (loader p).map (fun dr => LoadedAudio.mk p dr.1 dr.2)) = [] := by
      rw [List.filterMap_eq_nil_iff]
      intro p hp
      rw [hall p hp]
      rfl
    have hload : load_audio_files loader paths =
        .error ("No audio files could be loaded".toList) := by
      simp [load_audio_files, hfm]
    unfold build_sample_chain
    rw [if_neg (by simpa using hne), hload]
    rfl
  · intro hsome
    have hmem : ∃ x, x ∈ paths.filterMap (fun p =>
        (loader p).map (fun dr => LoadedAudio.mk p dr.1 dr.2)) := by
      obtain ⟨p, hp, hv⟩ := hsome
      obtain ⟨v, hv2⟩ := Option.isSome_iff_exists.mp hv
      exact ⟨LoadedAudio.mk p v.1 v.2, List.mem_filterMap.mpr ⟨p, hp, by rw [hv2]; rfl⟩⟩
    have hg : ¬ (paths.filterMap (fun p =>
        (loader p).map (fun dr => LoadedAudio.mk p dr.1 dr.2))).isEmpty = true := by
      obtain ⟨x, hx⟩ := hmem
      intro hc
      rw [List.isEmpty_iff] at hc
      rw [hc] at hx
      cases hx
    have hload : load_audio_files loader paths =
        .ok (paths.filterMap (fun p =>
          (loader p).map (fun dr => LoadedAudio.mk p dr.1 dr.2))) := by
      simp only [load_audio_files]
      rw [if_neg hg]
    refine ⟨hload, ?_⟩
    intro hc hb
    have hne : ¬ paths.isEmpty = true := by
      obtain ⟨p, hp, _⟩ := hsome
      intro hcon
      rw [List.isEmpty_iff] at hcon
      rw [hcon] at hp
      cases hp
    obtain ⟨cs, hcs⟩ := convertSlots_ok_exists rs nzF cfg hc hb
      (pad_samples_to_power_of_two cfg
        (normalize_sample_lengths rs cfg
          (paths.filterMap (fun p => (loader p).map (fun dr => LoadedAudio.mk p dr.1 dr.2)))
          (get_target_sample_length cfg
            (paths.filterMap (fun p => (loader p).map (fun dr => LoadedAudio.mk p dr.1 dr.2)))))
        (get_final_sample_count cfg
          (normalize_sample_lengths rs cfg
            (paths.filterMap (fun p => (loader p).map (fun dr => LoadedAudio.mk p dr.1 dr.2)))
            (get_target_sample_length cfg
              (paths.filterMap (fun p => (loader p).map (fun dr => LoadedAudio.mk p dr.1 dr.2))))).length))
      0
    unfold build_sample_chain
    rw [if_neg hne, hload]
    try simp only [bind, Except.bind]
    rw [hcs]
    exact ⟨_, rfl⟩

/-- C8, witness: a group in which every load fails produces the single
error, and a group with one loadable and one failing file builds
successfully. -/
theorem C8_witness :
    build_sample_chain zeroResample zeroNoise (fun _ => none) fxCfgDither
        [fxPathA] ("g".toList) = .error ("No audio files could be loaded".toList) ∧
      ∃ r, build_sample_chain zeroResample zeroNoise fxLoader fxCfgDither
        [fxPathA, [("missing.wav".toList)]] ("g".toList) = .ok r := by
  constructor
  · exact (C8_theorem zeroResample zeroNoise (fun _ => none) fxCfgDither
      [fxPathA] ("g".toList)).1 (by decide) (by intro p hp; rfl)
  · exact ((C8_theorem zeroResample zeroNoise fxLoader fxCfgDither
      [fxPathA, [("missing.wav".toList)]] ("g".toList)).2
        ⟨fxPathA, by decide, by decide⟩).2 (Or.inr rfl) (Or.inl rfl)

/-! ## C7: repeat-last padding -/

/-- With dithering disabled, convert_bit_depth does not consult the dither
oracle. -/
theorem convert_bit_depth_noise_irrel (nz1 nz2 : ℕ → ℕ → ℚ) (d : AudioData)
    (cb tb : ℕ) :
    convert_bit_depth nz1 false d cb tb = convert_bit_depth nz2 false d cb tb := by
  unfold convert_bit_depth
  simp

/-- With dithering disabled, convert_audio does not consult the dither
oracle. -/
theorem convert_audio_noise_irrel (rs : ℕ → List ℚ → ℕ → ℚ) (nz1 nz2 : ℕ → ℕ → ℚ)
    (s : AudioData) (R cb cc tb tc : ℕ) :
    convert_audio rs nz1 false s R cb cc R tb tc =
      convert_audio rs nz2 false s R cb cc R tb tc := by
  unfold convert_audio
  simp only [convert_bit_depth_noise_irrel nz1 nz2]

/-- Converting a four-slot list whose last two slots are equal, with
dithering disabled, yields a list whose last two slots are equal. -/
theorem convertSlots_four_last_eq (rs : ℕ → List ℚ → ℕ → ℚ) (nzF : ℕ → ℕ → ℕ → ℚ)
    (cfg : BuilderConfig) (hdith : cfg.dithering = false)
    (x y z : AudioData) (cs : List AudioData)
    (h : convertSlots rs nzF cfg 0 [x, y, z, z] = .ok cs) :
    ∃ cx cy cz, cs = [cx, cy, cz, cz] := by
  unfold convertSlots at h
  cases hA : convert_audio rs (nzF 0) cfg.dithering x cfg.output_sample_rate 32
      (numChannels x) cfg.output_sample_rate cfg.output_bit_depth cfg.output_channels with
  | error e => rw [hA] at h; simp [Except.bind, bind] at h
  | ok cx =>
    rw [hA] at h
    try simp only [bind, Except.bind] at h
    unfold convertSlots at h
    cases hB : convert_audio rs (nzF 1) cfg.dithering y cfg.output_sample_rate 32
        (numChannels y) cfg.output_sample_rate cfg.output_bit_depth cfg.output_channels with
    | error e => rw [hB] at h; simp [Except.bind, bind] at h
    | ok cy =>
      rw [hB] at h
      try simp only [bind, Except.bind] at h
      unfold convertSlots at h
      cases hC : convert_audio rs (nzF 2) cfg.dithering z cfg.output_sample_rate 32
          (numChannels z) cfg.output_sample_rate cfg.output_bit_depth cfg.output_channels with
      | error e => rw [hC] at h; simp [Except.bind, bind] at h
      | ok cz =>
        rw [hC] at h
        try simp only [bind, Except.bind] at h
        unfold convertSlots at h
        have hirr : convert_audio rs (nzF 3) cfg.dithering z cfg.output_sample_rate 32
            (numChannels z) cfg.output_sample_rate cfg.output_bit_depth cfg.output_channels =
            .ok cz := by
          rw [hdith] at hC ⊢
          rw [convert_audio_noise_irrel rs (nzF 3) (nzF 2)]
          exact hC
        rw [hirr] at h
        try simp only [bind, Except.bind] at h
        cases h
        exact ⟨cx, cy, cz, rfl⟩

/-- Slicing a chain of four uniform-length slots at slot indices 2 and 3
recovers the third and fourth slot. -/
theorem slots_two_three (L : ℕ) (c1 c2 c3 c4 : AudioData)
    (h1 : c1.length = L) (h2 : c2.length = L) (h3 : c3.length = L) (h4 : c4.length = L) :
    ((concatenate_samples [c1, c2, c3, c4]).drop (2 * L)).take L = c3 ∧
    ((concatenate_samples [c1, c2, c3, c4]).drop (3 * L)).take L = c4 := by
  have hc : concatenate_samples [c1, c2, c3, c4] = c1 ++ (c2 ++ (c3 ++ c4)) := by
    simp [concatenate_samples]
  constructor
  · rw [hc, show 2 * L = L + L by ring, ← List.drop_drop,
      List.drop_left' h1, List.drop_left' h2, List.take_left' h3]
  · rw [hc, show 3 * L = L + L + L by ring, ← List.drop_drop, ← List.drop_drop,
      List.drop_left' h1, List.drop_left' h2, List.drop_left' h3, ← h4, List.take_length]

/-- C7, corrected: a build from exactly three loadable files with
repeat-last padding, power-of-two enforcement, a cap of at least 4 and
dithering disabled yields sampleCount 4, and the padding slot (slot 3) is
deep-equal to slot 2, the slot of the third/last original sample, after
format conversion.  (With dithering enabled the conversion adds an
independent random dither draw per slot, so the two slots differ for
almost every draw; see the counterexample.) -/
theorem C7_theorem (rs : ℕ → List ℚ → ℕ → ℚ) (nzF : ℕ → ℕ → ℕ → ℚ)
    (loader : PyPath → Option (AudioData × ℕ)) (cfg : BuilderConfig)
    (p1 p2 p3 : PyPath) (gk : Str) (r : ChainResult)
    (h1 : (loader p1).isSome) (h2 : (loader p2).isSome) (h3 : (loader p3).isSome)
    (hpad : cfg.pad_strategy = ("repeat-last".toList))
    (henf : cfg.enforce_power_of_two = true)
    (hmax : 4 ≤ cfg.max_samples_per_chain)
    (hdith : cfg.dithering = false)
    (hok : build_sample_chain rs nzF loader cfg [p1, p2, p3] gk = .ok r) :
    r.sample_count = 4 ∧ chainSlot r 3 = chainSlot r 2 := by
  obtain ⟨v1, hv1⟩ := Option.isSome_iff_exists.mp h1
  obtain ⟨v2, hv2⟩ := Option.isSome_iff_exists.mp h2
  obtain ⟨v3, hv3⟩ := Option.isSome_iff_exists.mp h3
  have hload : load_audio_files loader [p1, p2, p3] =
      .ok [LoadedAudio.mk p1 v1.1 v1.2, LoadedAudio.mk p2 v2.1 v2.2,
        LoadedAudio.mk p3 v3.1 v3.2] := by
    simp [load_audio_files, hv1, hv2, hv3]
  unfold build_sample_chain at hok
  rw [if_neg (by simp), hload] at hok
  try simp only [bind, Except.bind] at hok
  have hlen3 : (normalize_sample_lengths rs cfg
      [LoadedAudio.mk p1 v1.1 v1.2, LoadedAudio.mk p2 v2.1 v2.2, LoadedAudio.mk p3 v3.1 v3.2]
      (get_target_sample_length cfg
        [LoadedAudio.mk p1 v1.1 v1.2, LoadedAudio.mk p2 v2.1 v2.2,
          LoadedAudio.mk p3 v3.1 v3.2])).length = 3 := by
    simp [normalize_sample_lengths]
  obtain ⟨s1, s2, s3, hs⟩ := List.length_eq_three.mp hlen3
  have hcnt : get_final_sample_count cfg
      (normalize_sample_lengths rs cfg
        [LoadedAudio.mk p1 v1.1 v1.2, LoadedAudio.mk p2 v2.1 v2.2, LoadedAudio.mk p3 v3.1 v3.2]
        (get_target_sample_length cfg
          [LoadedAudio.mk p1 v1.1 v1.2, LoadedAudio.mk p2 v2.1 v2.2,
            LoadedAudio.mk p3 v3.1 v3.2])).length = 4 := by
    rw [hlen3]
    unfold get_final_sample_count
    simp only [henf]
    rw [show nextPow2 3 = 4 from by decide]
    simp only [not_true, if_false]
    rw [if_neg (by omega)]
  have hpadded : pad_samples_to_power_of_two cfg
      (normalize_sample_lengths rs cfg
        [LoadedAudio.mk p1 v1.1 v1.2, LoadedAudio.mk p2 v2.1 v2.2, LoadedAudio.mk p3 v3.1 v3.2]
        (get_target_sample_length cfg
          [LoadedAudio.mk p1 v1.1 v1.2, LoadedAudio.mk p2 v2.1 v2.2,
            LoadedAudio.mk p3 v3.1 v3.2]))
      (get_final_sample_count cfg
        (normalize_sample_lengths rs cfg
          [LoadedAudio.mk p1 v1.1 v1.2, LoadedAudio.mk p2 v2.1 v2.2, LoadedAudio.mk p3 v3.1 v3.2]
          (get_target_sample_length cfg
            [LoadedAudio.mk p1 v1.1 v1.2, LoadedAudio.mk p2 v2.1 v2.2,
              LoadedAudio.mk p3 v3.1 v3.2])).length) = [s1, s2, s3, s3] := by
    rw [hcnt, hs]
    unfold pad_samples_to_power_of_two
    rw [if_neg (by simp), if_pos (by rw [hpad]; rfl)]
    simp
  rw [hpadded] at hok
  rw [hcnt] at hok
  have hmemlen : ∀ x ∈ [s1, s2, s3, s3], x.length =
      get_target_sample_length cfg
        [LoadedAudio.mk p1 v1.1 v1.2, LoadedAudio.mk p2 v2.1 v2.2,
          LoadedAudio.mk p3 v3.1 v3.2] := by
    have hn := normalize_length rs cfg
      [LoadedAudio.mk p1 v1.1 v1.2, LoadedAudio.mk p2 v2.1 v2.2, LoadedAudio.mk p3 v3.1 v3.2]
      (get_target_sample_length cfg
        [LoadedAudio.mk p1 v1.1 v1.2, LoadedAudio.mk p2 v2.1 v2.2,
          LoadedAudio.mk p3 v3.1 v3.2])
    rw [hs] at hn
    intro x hx
    rcases List.mem_cons.mp hx with rfl | hx
    · exact hn x (by simp)
    rcases List.mem_cons.mp hx with rfl | hx
    · exact hn x (by simp)
    rcases List.mem_cons.mp hx with rfl | hx
    · exact hn x (by simp)
    rcases List.mem_cons.mp hx with rfl | hx
    · exact hn x (by simp)
    cases hx
  cases hconv : convertSlots rs nzF cfg 0 [s1, s2, s3, s3] with
  | error e => rw [hconv] at hok; cases hok
  | ok cs =>
    rw [hconv] at hok
    cases hok
    obtain ⟨cx, cy, cz, hcs⟩ := convertSlots_four_last_eq rs nzF cfg hdith s1 s2 s3 cs hconv
    subst hcs
    obtain ⟨_, hcl⟩ := convertSlots_lengths rs nzF cfg
      (get_target_sample_length cfg
        [LoadedAudio.mk p1 v1.1 v1.2, LoadedAudio.mk p2 v2.1 v2.2,
          LoadedAudio.mk p3 v3.1 v3.2])
      [s1, s2, s3, s3] 0 [cx, cy, cz, cz] hmemlen hconv
    obtain ⟨hslot2, hslot3⟩ := slots_two_three
      (get_target_sample_length cfg
        [LoadedAudio.mk p1 v1.1 v1.2, LoadedAudio.mk p2 v2.1 v2.2,
          LoadedAudio.mk p3 v3.1 v3.2])
      cx cy cz cz (hcl cx (by simp)) (hcl cy (by simp)) (hcl cz (by simp)) (hcl cz (by simp))
    exact ⟨rfl, by
      show ((concatenate_samples [cx, cy, cz, cz]).drop (3 * _)).take _ =
        ((concatenate_samples [cx, cy, cz, cz]).drop (2 * _)).take _
      rw [hslot2, hslot3]⟩

/-- C7, counterexample to the unconditional claim: with the source's
default dithering enabled and a dither realization whose draw for slot 3
differs from the draw for slot 2, the padded slot is not deep-equal to the
last original slot (the third fixture sample sits on a quantization
boundary, so the differing draws encode to 16384 versus 16383). -/
theorem C7_counterexample :
    fxCfgDither.dithering = true ∧
      ((build_sample_chain zeroResample unequalNoise fxLoader fxCfgDither
          [fxPathA, fxPathB, fxPathC] ("g".toList)).toOption.map
        (fun r => (r.sample_count, decide (chainSlot r 3 = chainSlot r 2)))) =
        some (4, false) := by
  decide

/-- C7, witness: the theorem applied to a concrete three-file build with
dithering disabled. -/
theorem C7_witness :
    ((build_sample_chain zeroResample zeroNoise fxLoader fxCfgNoDither
        [fxPathA, fxPathB, fxPathC] ("g".toList)).toOption.map
      (fun r => (r.sample_count, decide (chainSlot r 3 = chainSlot r 2)))) =
      some (4, true) := by
  cases hok : build_sample_chain zeroResample zeroNoise fxLoader fxCfgNoDither
      [fxPathA, fxPathB, fxPathC] ("g".toList) with
  | error e =>
    exfalso
    have hs : (build_sample_chain zeroResample zeroNoise fxLoader fxCfgNoDither
        [fxPathA, fxPathB, fxPathC] ("g".toList)).toOption.isSome = true := by decide
    rw [hok] at hs
    simp [Except.toOption] at hs
  | ok r =>
    obtain ⟨hcount, hslot⟩ := C7_theorem zeroResample zeroNoise fxLoader fxCfgNoDither
      fxPathA fxPathB fxPathC ("g".toList) r (by decide) (by decide) (by decide)
      rfl rfl (by decide) rfl hok
    simp [Except.toOption, hcount, hslot]

/-! ## C2: hi-hat interleaving scenario -/

/-- Updating the empty dict yields the update list itself. -/
theorem dictUpdate_nil_left {α : Type} (e : List (Str × α)) : dictUpdate [] e = e := by
  unfold dictUpdate
  simp [lookupStr]

/-- Updating a dict with the empty dict changes nothing. -/
theorem dictUpdate_nil_right {α : Type} (d : List (Str × α)) : dictUpdate d [] = d := by
  unfold dictUpdate
  simp [lookupStr]

/-- One hi-hat accumulation step in the case where the group still fits
into the current chain: the files and running metadata are extended and
nothing is flushed. -/
theorem hihatStep_ext (cfg : PlannerConfig) (ai : Str → Option AInfo)
    (acc : HihatAcc) (g : Str × HGroup)
    (h : acc.current_chain_files.length +
      ((pySortPaths g.2.closedFiles).length + (pySortPaths g.2.openFiles).length) ≤
        cfg.max_samples_per_chain) :
    hihatStep cfg ai acc g =
      { acc with
        current_chain_files := acc.current_chain_files ++
          (pySortPaths g.2.closedFiles ++ pySortPaths g.2.openFiles)
        current_chain_metadata :=
          { closed_count := acc.current_chain_metadata.closed_count +
              (pySortPaths g.2.closedFiles).length
            open_count := acc.current_chain_metadata.open_count +
              (pySortPaths g.2.openFiles).length
            hat_names := acc.current_chain_metadata.hat_names ++ [g.1]
            total_files := acc.current_chain_metadata.total_files +
              (pySortPaths g.2.closedFiles ++ pySortPaths g.2.openFiles).length } } := by
  unfold hihatStep
  rw [if_neg (by simp only [List.length_append]; omega)]

/-- C2, counterexample to the base-name part of the claim: the token 1 of
ClosedHH A 1 is not a hi-hat marker, so extract_base_name keeps it and the
three files get the three distinct base names A 1, A 2 and A, not a
shared A. -/
theorem C2_counterexample :
    extract_base_name fxClosedA1 = ("A 1".toList) ∧
      extract_base_name fxClosedA2 = ("A 2".toList) ∧
      extract_base_name fxOpenA = ("A".toList) ∧
      extract_base_name fxClosedA1 ≠ ("A".toList) := by
  decide

/-- C2, corrected: for those three input files and any cap of at least 3,
the planner forms three singleton base-name groups (A, A 1, A 2, iterated
in sorted order), and emits exactly one hi-hat chain hats_1 whose metadata
has closed_count 2 and open_count 1 and whose file list is
[OpenHH A.wav, ClosedHH A 1.wav, ClosedHH A 2.wav] — the open file first,
because its group A sorts before A 1 and A 2. -/
theorem C2_theorem (ai : Str → Option AInfo) (maxS sr bd ch : ℕ) (hmax : 3 ≤ maxS) :
    ((plan_smart_chains ⟨maxS, sr, bd, ch⟩ ai [fxClosedA1, fxClosedA2, fxOpenA]).map
      (fun kv => (kv.1, kv.2.files, kv.2.metadata.closed_count, kv.2.metadata.open_count))) =
      [(("hats_1".toList), [fxOpenA, fxClosedA1, fxClosedA2], some 2, some 1)] := by
  have hplan : plan_smart_chains ⟨maxS, sr, bd, ch⟩ ai [fxClosedA1, fxClosedA2, fxOpenA] =
      dictUpdate (dictUpdate []
        (create_combined_hihat_chains ⟨maxS, sr, bd, ch⟩
          [(fxClosedA1, .closed), (fxClosedA2, .closed), (fxOpenA, .openHat)] ai)) [] := rfl
  rw [hplan, dictUpdate_nil_right, dictUpdate_nil_left]
  unfold create_combined_hihat_chains
  rw [if_neg (by decide)]
  try dsimp only []
  rw [show List.insertionSort groupLt (buildHihatGroups
      [(fxClosedA1, .closed), (fxClosedA2, .closed), (fxOpenA, .openHat)]) =
      [(("A".toList), HGroup.mk [] [fxOpenA]), (("A 1".toList), HGroup.mk [fxClosedA1] []),
        (("A 2".toList), HGroup.mk [fxClosedA2] [])] from by decide]
  have e0 : pySortPaths ([] : List PyPath) = [] := rfl
  have e1 : pySortPaths [fxOpenA] = [fxOpenA] := rfl
  have e2 : pySortPaths [fxClosedA1] = [fxClosedA1] := rfl
  have e3 : pySortPaths [fxClosedA2] = [fxClosedA2] := rfl
  rw [List.foldl_cons, hihatStep_ext _ _ _ _ (by simp [e0, e1]; omega)]
  rw [List.foldl_cons, hihatStep_ext _ _ _ _ (by simp [e0, e1, e2]; omega)]
  rw [List.foldl_cons, hihatStep_ext _ _ _ _ (by simp [e0, e1, e2, e3]; omega)]
  rw [List.foldl_nil]
  simp only [e0, e1, e2, e3, List.append_nil, List.nil_append]
  rw [if_pos (by simp)]
  simp [dictUpsert, lookupStr, create_chain_from_files]
  decide

/-- C2, witness: the theorem applied at the default cap of sixteen. -/
theorem C2_witness :
    ((plan_smart_chains ⟨16, 48000, 16, 2⟩ noInfo [fxClosedA1, fxClosedA2, fxOpenA]).map
      (fun kv => (kv.1, kv.2.files, kv.2.metadata.closed_count, kv.2.metadata.open_count))) =
      [(("hats_1".toList), [fxOpenA, fxClosedA1, fxClosedA2], some 2, some 1)] :=
  C2_theorem noInfo 16 48000 16 2 (by norm_num)

/-! ## C10: the planner's chains partition the input -/

/-- A key is found exactly when some entry carries it. -/
theorem lookupStr_isSome_iff {α : Type} (d : List (Str × α)) (k : Str) :
    (lookupStr d k).isSome = true ↔ ∃ kv ∈ d, kv.1 = k := by
  unfold lookupStr
  have hmap : ∀ o : Option (Str × α), (o.map (fun kv => kv.2)).isSome = o.isSome := by
    intro o
    cases o <;> rfl
  rw [hmap, List.find?_isSome]
  constructor
  · rintro ⟨kv, hkv, hp⟩
    exact ⟨kv, hkv, by simpa using hp⟩
  · rintro ⟨kv, hkv, hp⟩
    exact ⟨kv, hkv, by simpa using hp⟩

/-- Entries in the dict are found. -/
theorem lookupStr_isSome_of_mem {α : Type} (d : List (Str × α)) (kv : Str × α)
    (h : kv ∈ d) : (lookupStr d kv.1).isSome = true :=
  (lookupStr_isSome_iff d kv.1).mpr ⟨kv, h, rfl⟩

/-- A missing key is found in no entry. -/
theorem lookupStr_none_not_mem {α : Type} (d : List (Str × α)) (k : Str)
    (h : lookupStr d k = none) : ∀ kv ∈ d, kv.1 ≠ k := by
  intro kv hkv hc
  have := lookupStr_isSome_of_mem d kv hkv
  rw [hc, h] at this
  cases this

/-- A dict update whose key sets are disjoint (stated one-sidedly: no
update key is present in the base) is a plain append. -/
theorem dictUpdate_eq_append {α : Type} (d e : List (Str × α))
    (hed : ∀ kv ∈ e, lookupStr d kv.1 = none) : dictUpdate d e = d ++ e := by
  have hde : ∀ kv ∈ d, lookupStr e kv.1 = none := by
    intro kv hkv
    cases he : lookupStr e kv.1 with
    | none => rfl
    | some v =>
      exfalso
      have hsome : (lookupStr e kv.1).isSome = true := by rw [he]; rfl
      obtain ⟨kv', hkv', hk⟩ := (lookupStr_isSome_iff e kv.1).mp hsome
      have := hed kv' hkv'
      rw [hk] at this
      have hmem := lookupStr_isSome_of_mem d kv hkv
      rw [this] at hmem
      cases hmem
  unfold dictUpdate
  have h1 : d.map (fun kv => (kv.1, (lookupStr e kv.1).getD kv.2)) = d := by
    calc d.map (fun kv => (kv.1, (lookupStr e kv.1).getD kv.2))
        = d.map (fun kv => kv) := by
          apply List.map_congr_left
          intro kv hkv
          rw [hde kv hkv]
          rfl
      _ = d := List.map_id' d
  have h2 : e.filter (fun kv => (lookupStr d kv.1).isNone) = e := by
    apply List.filter_eq_self.mpr
    intro kv hkv
    rw [hed kv hkv]
    rfl
  rw [h1, h2]

/-- Lookup on a cons either hits the head key or continues. -/
theorem lookupStr_cons {α : Type} (a : Str × α) (d : List (Str × α)) (k : Str) :
    lookupStr (a :: d) k =
      if (a.1 == k) = true then some a.2 else lookupStr d k := by
  unfold lookupStr
  rw [List.find?_cons]
  by_cases h : (a.1 == k) = true
  · rw [if_pos h]
    simp only [h]
    rfl
  · rw [if_neg h]
    simp only [Bool.not_eq_true] at h
    simp [h]

/-- Upserting a hi-hat file either keeps the key list or appends the new
base name, the latter exactly when the key was absent. -/
theorem addToGroups_keys (gs : List (Str × HGroup)) (bn : Str) (t : HihatKind)
    (p : PyPath) :
    keysOf (addToGroups gs bn t p) = keysOf gs ∨
      (keysOf (addToGroups gs bn t p) = keysOf gs ++ [bn] ∧ bn ∉ keysOf gs) := by
  unfold addToGroups
  by_cases h : (lookupStr gs bn).isSome = true
  · left
    rw [if_pos h]
    unfold keysOf
    rw [List.map_map]
    apply List.map_congr_left
    intro kv _
    by_cases hb : (kv.1 == bn) = true
    · have he : kv.1 = bn := by simpa using hb
      cases t <;> simp [hb, he]
    · have he : ¬ kv.1 = bn := by simpa using hb
      cases t <;> simp [hb, he]
  · right
    rw [if_neg h]
    constructor
    · unfold keysOf
      cases t <;> simp
    · intro hc
      apply h
      obtain ⟨kv, hkv, hk⟩ := List.mem_map.mp hc
      exact (lookupStr_isSome_iff gs bn).mpr ⟨kv, hkv, hk⟩

/-- Upserting preserves distinctness of the keys. -/
theorem addToGroups_keys_nodup (gs : List (Str × HGroup)) (bn : Str) (t : HihatKind)
    (p : PyPath) (hnd : (keysOf gs).Nodup) :
    (keysOf (addToGroups gs bn t p)).Nodup := by
  rcases addToGroups_keys gs bn t p with h | ⟨h, hnm⟩
  · rw [h]; exact hnd
  · rw [h]
    simp [List.nodup_append, hnd, hnm]

/-- Updating entries whose key is absent from a group list changes
nothing (helper matching the map of the upsert branch). -/
theorem map_upd_id (bn : Str) (t : HihatKind) (p : PyPath)
    (gs : List (Str × HGroup)) (h : ∀ kv ∈ gs, kv.1 ≠ bn) :
    gs.map (fun kv =>
      if (kv.1 == bn) = true then
        (kv.1, match t with
          | .closed => HGroup.mk (kv.2.closedFiles ++ [p]) kv.2.openFiles
          | .openHat => HGroup.mk kv.2.closedFiles (kv.2.openFiles ++ [p]))
      else kv) = gs := by
  calc gs.map _ = gs.map (fun kv => kv) := by
        apply List.map_congr_left
        intro kv hkv
        rw [if_neg (by simpa using h kv hkv)]
    _ = gs := List.map_id' gs

/-- Upserting one classified hi-hat file adds exactly that file to the
multiset of grouped files (given distinct keys, only one entry is
extended). -/
theorem addToGroups_perm (bn : Str) (t : HihatKind) (p : PyPath) :
    ∀ (gs : List (Str × HGroup)), (keysOf gs).Nodup →
    List.Perm ((addToGroups gs bn t p).flatMap groupFiles)
      (gs.flatMap groupFiles ++ [p]) := by
  intro gs
  induction gs with
  | nil =>
    intro _
    cases t <;> simp [addToGroups, lookupStr, groupFiles]
  | cons a gs' IH =>
    intro hnd
    have hk : keysOf (a :: gs') = a.1 :: keysOf gs' := rfl
    rw [hk, List.nodup_cons] at hnd
    obtain ⟨hna, hnd'⟩ := hnd
    by_cases hb : (a.1 == bn) = true
    · have ha : a.1 = bn := by simpa using hb
      have hpres : (lookupStr (a :: gs') bn).isSome = true :=
        (lookupStr_isSome_iff _ bn).mpr ⟨a, List.mem_cons_self a gs', ha⟩
      have hne : ∀ kv ∈ gs', kv.1 ≠ bn := by
        intro kv hkv hc
        apply hna
        rw [ha, ← hc]
        exact List.mem_map.mpr ⟨kv, hkv, rfl⟩
      unfold addToGroups
      rw [if_pos hpres, List.map_cons, map_upd_id bn t p gs' hne, if_pos hb]
      simp only [List.flatMap_cons]
      have hshuffle : ∀ X : List PyPath,
          List.Perm ((groupFiles a ++ [p]) ++ X) ((groupFiles a ++ X) ++ [p]) := by
        intro X
        rw [List.append_assoc, List.append_assoc]
        exact List.Perm.append_left _ List.perm_append_comm
      cases t
      · refine List.Perm.trans
          (List.Perm.append ?_ (List.Perm.refl (gs'.flatMap groupFiles)))
          (hshuffle (gs'.flatMap groupFiles))
        show List.Perm ((a.2.closedFiles ++ [p]) ++ a.2.openFiles) (groupFiles a ++ [p])
        unfold groupFiles
        rw [List.append_assoc, List.append_assoc]
        exact List.Perm.append_left _ List.perm_append_comm
      · refine List.Perm.trans
          (List.Perm.append ?_ (List.Perm.refl (gs'.flatMap groupFiles)))
          (hshuffle (gs'.flatMap groupFiles))
        show List.Perm (a.2.closedFiles ++ (a.2.openFiles ++ [p])) (groupFiles a ++ [p])
        unfold groupFiles
        rw [List.append_assoc]
    · have hstep : addToGroups (a :: gs') bn t p = a :: addToGroups gs' bn t p := by
        unfold addToGroups
        rw [lookupStr_cons, if_neg hb]
        by_cases hp : (lookupStr gs' bn).isSome = true
        · rw [if_pos hp, if_pos hp, List.map_cons, if_neg hb]
        · rw [if_neg hp, if_neg hp]
          rfl
      rw [hstep]
      simp only [List.flatMap_cons]
      refine List.Perm.trans
        (List.Perm.append_left (groupFiles a) (IH hnd')) ?_
      rw [List.append_assoc]

/-- The base-name grouping fold collects exactly the classified file
multiset. -/
theorem buildGroups_fold_perm :
    ∀ (hf : List (PyPath × HihatKind)) (gs : List (Str × HGroup)),
      (keysOf gs).Nodup →
      List.Perm
        ((hf.foldl (fun g pt => addToGroups g (extract_base_name pt.1) pt.2 pt.1) gs).flatMap
          groupFiles)
        (gs.flatMap groupFiles ++ hf.map Prod.fst) := by
  intro hf
  induction hf with
  | nil =>
    intro gs _
    simp
  | cons pt hf' IH =>
    intro gs hnd
    rw [List.foldl_cons]
    refine List.Perm.trans
      (IH (addToGroups gs (extract_base_name pt.1) pt.2 pt.1)
        (addToGroups_keys_nodup gs _ _ _ hnd)) ?_
    refine List.Perm.trans
      (List.Perm.append (addToGroups_perm _ _ _ gs hnd) (List.Perm.refl _)) ?_
    rw [List.append_assoc]
    simp

/-- The grouped hi-hat files are a permutation of the classified hi-hat
files. -/
theorem buildHihatGroups_perm (hf : List (PyPath × HihatKind)) :
    List.Perm ((buildHihatGroups hf).flatMap groupFiles) (hf.map Prod.fst) := by
  have h := buildGroups_fold_perm hf [] (by simp [keysOf])
  simpa [buildHihatGroups] using h

/-- flatMap respects pointwise permutation of the images. -/
theorem flatMap_perm_congr {α β : Type} (f g : α → List β)
    (h : ∀ a, List.Perm (f a) (g a)) :
    ∀ l : List α, List.Perm (l.flatMap f) (l.flatMap g) := by
  intro l
  induction l with
  | nil => simp
  | cons a t IH =>
    simp only [List.flatMap_cons]
    exact List.Perm.append (h a) IH

/-- The sorted closed-then-open listing of a group is a permutation of the
group's files. -/
theorem sortedGroup_perm (g : Str × HGroup) :
    List.Perm (pySortPaths g.2.closedFiles ++ pySortPaths g.2.openFiles) (groupFiles g) :=
  List.Perm.append (List.perm_insertionSort pathLt g.2.closedFiles)
    (List.perm_insertionSort pathLt g.2.openFiles)

/-- The hi-hat emission fold distributes every group's files into chains
without loss or duplication. -/
theorem hihatEmitted_fold (cfg : PlannerConfig) (ai : Str → Option AInfo) :
    ∀ (gs : List (Str × HGroup)) (acc : HihatAcc),
      accFiles (gs.foldl (hihatStepE cfg ai) acc) =
        accFiles acc ++ gs.flatMap (fun g =>
          pySortPaths g.2.closedFiles ++ pySortPaths g.2.openFiles) := by
  intro gs
  induction gs with
  | nil =>
    intro acc
    simp
  | cons g gs' IH =>
    intro acc
    rw [List.foldl_cons, IH]
    have hstep : accFiles (hihatStepE cfg ai acc g) =
        accFiles acc ++ (pySortPaths g.2.closedFiles ++ pySortPaths g.2.openFiles) := by
      unfold hihatStepE accFiles
      by_cases hover : acc.current_chain_files.length +
          (pySortPaths g.2.closedFiles ++ pySortPaths g.2.openFiles).length >
            cfg.max_samples_per_chain
      · rw [if_pos hover]
        by_cases hcur : acc.current_chain_files.isEmpty
        · rw [if_neg (by simp [hcur])]
          have : acc.current_chain_files = [] := by simpa [List.isEmpty_iff] using hcur
          simp [this]
        · rw [if_pos (by simp [hcur])]
          simp [create_chain_from_files, List.append_assoc]
      · rw [if_neg hover]
        simp [List.append_assoc]
    rw [hstep, List.flatMap_cons, List.append_assoc]

/-- The emitted hi-hat chains hold exactly the classified hi-hat files,
up to permutation. -/
theorem hihatEmitted_perm (cfg : PlannerConfig) (ai : Str → Option AInfo)
    (hf : List (PyPath × HihatKind)) :
    List.Perm ((hihatEmitted cfg hf ai).flatMap (fun kv => kv.2.files))
      (hf.map Prod.fst) := by
  unfold hihatEmitted
  by_cases hne : hf.isEmpty
  · rw [if_pos hne]
    have : hf = [] := by simpa [List.isEmpty_iff] using hne
    simp [this]
  · rw [if_neg hne]
    have hfold := hihatEmitted_fold cfg ai
      (List.insertionSort groupLt (buildHihatGroups hf))
      { chains := []
        chain_counter := 1
        current_chain_files := []
        current_chain_metadata :=
          { closed_count := 0, open_count := 0, hat_names := [], total_files := 0 } }
    have hcontent : ∀ final : HihatAcc,
        accFiles final =
        (if ¬ final.current_chain_files.isEmpty = true then
          final.chains ++ [(hatsName final.chain_counter,
            create_chain_from_files cfg final.current_chain_files ai
              (hatsName final.chain_counter) (toExtra final.current_chain_metadata))]
        else final.chains).flatMap (fun kv => kv.2.files) := by
      intro final
      by_cases hcur : final.current_chain_files.isEmpty
      · rw [if_neg (by simp [hcur])]
        unfold accFiles
        have : final.current_chain_files = [] := by simpa [List.isEmpty_iff] using hcur
        simp [this]
      · rw [if_pos (by simp [hcur])]
        unfold accFiles
        simp [create_chain_from_files]
    rw [← hcontent, hfold]
    unfold accFiles
    simp only [List.flatMap_nil, List.append_nil, List.nil_append]
    refine List.Perm.trans (flatMap_perm_congr _ groupFiles sortedGroup_perm _) ?_
    refine List.Perm.trans ?_ (buildHihatGroups_perm hf)
    have hperm := List.perm_insertionSort groupLt (buildHihatGroups hf)
    rw [List.flatMap_def, List.flatMap_def]
    exact List.Perm.flatten (hperm.map groupFiles)

/-- Updating directory entries whose key is absent changes nothing. -/
theorem map_dir_upd_id (k : Str) (p : PyPath) (gs : List (Str × List PyPath))
    (h : ∀ kv ∈ gs, kv.1 ≠ k) :
    gs.map (fun kv => if (kv.1 == k) = true then (kv.1, kv.2 ++ [p]) else kv) = gs := by
  calc gs.map _ = gs.map (fun kv => kv) := by
        apply List.map_congr_left
        intro kv hkv
        rw [if_neg (by simpa using h kv hkv)]
    _ = gs := List.map_id' gs

/-- Upserting a directory file either keeps the key list or appends the
new key, the latter exactly when the key was absent. -/
theorem addToDirGroups_keys (gs : List (Str × List PyPath)) (k : Str) (p : PyPath) :
    keysOf (addToDirGroups gs k p) = keysOf gs ∨
      (keysOf (addToDirGroups gs k p) = keysOf gs ++ [k] ∧ k ∉ keysOf gs) := by
  unfold addToDirGroups
  by_cases h : (lookupStr gs k).isSome = true
  · left
    rw [if_pos h]
    unfold keysOf
    rw [List.map_map]
    apply List.map_congr_left
    intro kv _
    by_cases hb : (kv.1 == k) = true
    · have he : kv.1 = k := by simpa using hb
      simp [hb, he]
    · have he : ¬ kv.1 = k := by simpa using hb
      simp [hb, he]
  · right
    rw [if_neg h]
    constructor
    · unfold keysOf
      simp
    · intro hc
      apply h
      obtain ⟨kv, hkv, hk⟩ := List.mem_map.mp hc
      exact (lookupStr_isSome_iff gs k).mpr ⟨kv, hkv, hk⟩

/-- Directory upserting preserves distinctness of the keys. -/
theorem addToDirGroups_keys_nodup (gs : List (Str × List PyPath)) (k : Str)
    (p : PyPath) (hnd : (keysOf gs).Nodup) :
    (keysOf (addToDirGroups gs k p)).Nodup := by
  rcases addToDirGroups_keys gs k p with h | ⟨h, hnm⟩
  · rw [h]; exact hnd
  · rw [h]
    simp [List.nodup_append, hnd, hnm]

/-- Upserting one regular file adds exactly that file to the multiset of
bucketed files. -/
theorem addToDirGroups_perm (k : Str) (p : PyPath) :
    ∀ (gs : List (Str × List PyPath)), (keysOf gs).Nodup →
    List.Perm ((addToDirGroups gs k p).flatMap (fun kv => kv.2))
      (gs.flatMap (fun kv => kv.2) ++ [p]) := by
  intro gs
  induction gs with
  | nil =>
    intro _
    simp [addToDirGroups, lookupStr]
  | cons a gs' IH =>
    intro hnd
    have hk : keysOf (a :: gs') = a.1 :: keysOf gs' := rfl
    rw [hk, List.nodup_cons] at hnd
    obtain ⟨hna, hnd'⟩ := hnd
    by_cases hb : (a.1 == k) = true
    · have ha : a.1 = k := by simpa using hb
      have hpres : (lookupStr (a :: gs') k).isSome = true :=
        (lookupStr_isSome_iff _ k).mpr ⟨a, List.mem_cons_self a gs', ha⟩
      have hne : ∀ kv ∈ gs', kv.1 ≠ k := by
        intro kv hkv hc
        apply hna
        rw [ha, ← hc]
        exact List.mem_map.mpr ⟨kv, hkv, rfl⟩
      unfold addToDirGroups
      rw [if_pos hpres, List.map_cons, map_dir_upd_id k p gs' hne, if_pos hb]
      simp only [List.flatMap_cons]
      rw [List.append_assoc, List.append_assoc]
      exact List.Perm.append_left _ List.perm_append_comm
    · have hstep : addToDirGroups (a :: gs') k p = a :: addToDirGroups gs' k p := by
        unfold addToDirGroups
        rw [lookupStr_cons, if_neg hb]
        by_cases hp : (lookupStr gs' k).isSome = true
        · rw [if_pos hp, if_pos hp, List.map_cons, if_neg hb]
        · rw [if_neg hp, if_neg hp]
          rfl
      rw [hstep]
      simp only [List.flatMap_cons]
      refine List.Perm.trans (List.Perm.append_left a.2 (IH hnd')) ?_
      rw [List.append_assoc]

/-- The directory bucketing fold collects exactly the regular file
multiset. -/
theorem dirGroups_fold_perm :
    ∀ (rf : List PyPath) (gs : List (Str × List PyPath)),
      (keysOf gs).Nodup →
      List.Perm
        ((rf.foldl (fun g p => addToDirGroups g (regularGroupKey p) p) gs).flatMap
          (fun kv => kv.2))
        (gs.flatMap (fun kv => kv.2) ++ rf) := by
  intro rf
  induction rf with
  | nil =>
    intro gs _
    simp
  | cons p rf' IH =>
    intro gs hnd
    rw [List.foldl_cons]
    refine List.Perm.trans
      (IH (addToDirGroups gs (regularGroupKey p) p)
        (addToDirGroups_keys_nodup gs _ _ hnd)) ?_
    refine List.Perm.trans
      (List.Perm.append (addToDirGroups_perm _ _ gs hnd) (List.Perm.refl _)) ?_
    rw [List.append_assoc]
    simp

/-- Appending one emitted element per iteration is mapping. -/
theorem foldl_emit {α β : Type} (g : α → List β) :
    ∀ (l : List α) (init : List β),
      List.foldl (fun acc x => acc ++ g x) init l = init ++ l.flatMap g := by
  intro l
  induction l with
  | nil => intro init; simp
  | cons x t IH =>
    intro init
    rw [List.foldl_cons, IH, List.flatMap_cons, List.append_assoc]

/-- Ceiling division recovers at least the dividend after multiplying
back. -/
theorem ceil_div_mul_ge (len c : ℕ) (hc : 0 < c) :
    len ≤ ((len + c - 1) / c) * c := by
  rcases Nat.eq_zero_or_pos len with rfl | hlen
  · simp
  have h1 : c * ((len + c - 1) / c) + (len + c - 1) % c = len + c - 1 :=
    Nat.div_add_mod (len + c - 1) c
  have h2 : (len + c - 1) % c < c := Nat.mod_lt _ hc
  have h3 : len + c - 1 + 1 = len + c := by omega
  rw [Nat.mul_comm]
  linarith

/-- Consecutive chunks of size c rebuild the list when n * c covers its
length. -/
theorem chunks_flatten (c : ℕ) :
    ∀ (n : ℕ) (l : List PyPath), l.length ≤ n * c →
      ((List.range n).map (fun i => (l.drop (i * c)).take c)).flatten = l := by
  intro n
  induction n with
  | zero =>
    intro l hl
    simp at hl
    simp [hl]
  | succ n IH =>
    intro l hl
    rw [List.range_succ_eq_map, List.map_cons, List.flatten_cons, List.map_map]
    have hrest : (List.range n).map ((fun i => (l.drop (i * c)).take c) ∘ Nat.succ) =
        (List.range n).map (fun i => ((l.drop c).drop (i * c)).take c) := by
      apply List.map_congr_left
      intro i _
      simp only [Function.comp]
      rw [List.drop_drop]
      congr 1
      simp [Nat.succ_eq_add_one]
      ring_nf
    rw [hrest]
    have hlen : (l.drop c).length ≤ n * c := by
      rw [List.length_drop]
      have h4 : l.length ≤ n * c + c := by
        calc l.length ≤ (n + 1) * c := hl
          _ = n * c + c := by ring
      exact Nat.sub_le_iff_le_add.mpr h4
    rw [IH (l.drop c) hlen]
    simp [List.take_append_drop]

/-- flatMap of singletons is map. -/
theorem flatMap_singleton_eq_map {α β : Type} (f : α → β) :
    ∀ l : List α, l.flatMap (fun x => [f x]) = l.map f := by
  intro l
  induction l with
  | nil => rfl
  | cons a t IH => simp [List.flatMap_cons, IH]

/-- The emission fold over directory buckets appends each bucket's
chains. -/
theorem regular_fold_emit (cfg : PlannerConfig) (ai : Str → Option AInfo) :
    ∀ (groups : List (Str × List PyPath)) (init : List (Str × PlanChain)),
      groups.foldl (fun chains kf =>
        let sorted_files := pySortPaths kf.2
        if sorted_files.length ≤ cfg.max_samples_per_chain then
          chains ++ [(kf.1,
            create_chain_from_files cfg sorted_files ai kf.1
              { closed_count := none, open_count := none, hat_names := none
                total_files := sorted_files.length })]
        else
          let num_chains := (sorted_files.length + cfg.max_samples_per_chain - 1) /
            cfg.max_samples_per_chain
          (List.range num_chains).foldl (fun cs i =>
            let chain_files := (sorted_files.drop (i * cfg.max_samples_per_chain)).take
              cfg.max_samples_per_chain
            let chain_name := kf.1 ++ ("_".toList) ++ natToStr (i + 1)
            cs ++ [(chain_name,
              create_chain_from_files cfg chain_files ai chain_name
                { closed_count := none, open_count := none, hat_names := none
                  total_files := chain_files.length })]) chains) init =
      init ++ groups.flatMap (regularEmitFor cfg ai) := by
  intro groups
  induction groups with
  | nil => intro init; simp
  | cons kf groups' IH =>
    intro init
    rw [List.foldl_cons, IH, List.flatMap_cons, ← List.append_assoc]
    congr 1
    by_cases hsmall : (pySortPaths kf.2).length ≤ cfg.max_samples_per_chain
    · simp only [regularEmitFor]
      rw [if_pos hsmall, if_pos hsmall]
    · simp only [regularEmitFor]
      rw [if_neg hsmall, if_neg hsmall]
      rw [foldl_emit]
      congr 1
      exact flatMap_singleton_eq_map _ _

/-- Each directory bucket's emitted chains hold exactly the bucket's
sorted files. -/
theorem regularEmitFor_files (cfg : PlannerConfig) (ai : Str → Option AInfo)
    (hmax : 0 < cfg.max_samples_per_chain) (kf : Str × List PyPath) :
    (regularEmitFor cfg ai kf).flatMap (fun kv => kv.2.files) = pySortPaths kf.2 := by
  simp only [regularEmitFor]
  by_cases hsmall : (pySortPaths kf.2).length ≤ cfg.max_samples_per_chain
  · rw [if_pos hsmall]
    simp [create_chain_from_files]
  · rw [if_neg hsmall]
    have hcov : (pySortPaths kf.2).length ≤
        (((pySortPaths kf.2).length + cfg.max_samples_per_chain - 1) /
          cfg.max_samples_per_chain) * cfg.max_samples_per_chain :=
      ceil_div_mul_ge _ _ hmax
    have hch := chunks_flatten cfg.max_samples_per_chain
      (((pySortPaths kf.2).length + cfg.max_samples_per_chain - 1) /
        cfg.max_samples_per_chain) (pySortPaths kf.2) hcov
    conv_rhs => rw [← hch]
    rw [List.flatMap_def, List.map_map]
    rfl

/-- The emitted regular chains hold exactly the regular files, up to
permutation. -/
theorem regularEmitted_perm (cfg : PlannerConfig) (ai : Str → Option AInfo)
    (rf : List PyPath) (hmax : 0 < cfg.max_samples_per_chain) :
    List.Perm ((regularEmitted cfg rf ai).flatMap (fun kv => kv.2.files)) rf := by
  simp only [regularEmitted]
  by_cases hne : rf.isEmpty
  · rw [if_pos hne]
    have : rf = [] := by simpa [List.isEmpty_iff] using hne
    simp [this]
  · rw [if_neg hne]
    rw [regular_fold_emit]
    simp only [List.nil_append]
    rw [List.flatMap_assoc]
    simp only [regularEmitFor_files cfg ai hmax]
    refine List.Perm.trans
      (flatMap_perm_congr (fun kf : Str × List PyPath => pySortPaths kf.2)
        (fun kf : Str × List PyPath => kf.2)
        (fun kf => List.perm_insertionSort pathLt kf.2) _) ?_
    have hfold := dirGroups_fold_perm rf [] (by simp [keysOf])
    simpa using hfold

/-- is_hihat_file returns either a classification (true with a kind) or
the negative answer (false with none); no other shape occurs. -/
theorem is_hihat_shape (p : PyPath) :
    (∃ t, is_hihat_file p = (true, some t)) ∨ is_hihat_file p = (false, none) := by
  cases h1 : findHihatKind (lowerStr (pathName (pathParent p))) with
  | some t => exact Or.inl ⟨t, by simp [is_hihat_file, h1]⟩
  | none =>
    cases h2 : findHihatKind (lowerStr (pathName p)) with
    | some t => exact Or.inl ⟨t, by simp [is_hihat_file, h1, h2]⟩
    | none => exact Or.inr (by simp [is_hihat_file, h1, h2])

/-- The hi-hat and regular classification passes of plan_smart_chains
partition the input, up to permutation. -/
theorem classified_perm (files : List PyPath) :
    List.Perm ((hihatClassified files).map Prod.fst ++ regularClassified files)
      files := by
  induction files with
  | nil => simp [hihatClassified, regularClassified]
  | cons p t IH =>
    rcases is_hihat_shape p with ⟨k, hk⟩ | hk
    · have hh : hihatClassified (p :: t) = (p, k) :: hihatClassified t := by
        simp [hihatClassified, List.filterMap_cons, hk]
      have hr : regularClassified (p :: t) = regularClassified t := by
        simp [regularClassified, List.filter_cons, hk]
      rw [hh, hr, List.map_cons, List.cons_append]
      exact List.Perm.cons p IH
    · have hh : hihatClassified (p :: t) = hihatClassified t := by
        simp [hihatClassified, List.filterMap_cons, hk]
      have hr : regularClassified (p :: t) = p :: regularClassified t := by
        simp [regularClassified, List.filter_cons, hk]
      rw [hh, hr]
      refine List.Perm.trans List.perm_middle ?_
      exact List.Perm.cons p IH

/-- C10: provided the planner's two dict-building passes never collide on
a chain name (stated as: the hi-hat pass and the regular pass each emit
their chains without an in-pass overwrite, and no regular chain name is
already a hi-hat chain name), the file lists of the chains produced by
plan_smart_chains form a partition of a distinct input list: their
concatenation is a permutation of the input and holds no duplicate. -/
theorem C10_theorem (cfg : PlannerConfig) (ai : Str → Option AInfo)
    (files : List PyPath)
    (hmax : 0 < cfg.max_samples_per_chain)
    (hnodup : files.Nodup)
    (hh : create_combined_hihat_chains cfg (hihatClassified files) ai =
      hihatEmitted cfg (hihatClassified files) ai)
    (hr : create_regular_chains cfg (regularClassified files) ai =
      regularEmitted cfg (regularClassified files) ai)
    (hdisj : ∀ kv ∈ regularEmitted cfg (regularClassified files) ai,
      lookupStr (hihatEmitted cfg (hihatClassified files) ai) kv.1 = none) :
    List.Perm ((plan_smart_chains cfg ai files).flatMap (fun kv => kv.2.files))
        files ∧
      ((plan_smart_chains cfg ai files).flatMap (fun kv => kv.2.files)).Nodup := by
  have hplan : plan_smart_chains cfg ai files =
      dictUpdate
        (dictUpdate [] (create_combined_hihat_chains cfg (hihatClassified files) ai))
        (create_regular_chains cfg (regularClassified files) ai) := rfl
  have hperm : List.Perm
      ((plan_smart_chains cfg ai files).flatMap (fun kv => kv.2.files)) files := by
    rw [hplan, dictUpdate_nil_left, hh, hr, dictUpdate_eq_append _ _ hdisj,
      List.flatMap_append]
    refine List.Perm.trans
      (List.Perm.append (hihatEmitted_perm cfg ai (hihatClassified files))
        (regularEmitted_perm cfg ai (regularClassified files) hmax)) ?_
    exact classified_perm files
  exact ⟨hperm, hperm.nodup_iff.mpr hnodup⟩

/-- C10 counterexample: for the distinct regular files x/y/f.wav,
x/y/g.wav and x/y_1/h.wav with max_samples_per_chain 1, no hi-hat chain
exists at all (so the claim's hats_N proviso holds vacuously), yet
x/y/f.wav appears in no planned chain: the first chunk chain x/y_1 of the
oversized directory x/y is overwritten by the chain of directory x/y_1. -/
theorem C10_counterexample :
    [fxRegF, fxRegG, fxRegH].Nodup ∧
    hihatClassified [fxRegF, fxRegG, fxRegH] = [] ∧
    (plan_smart_chains fxPlanCfg1 noInfo [fxRegF, fxRegG, fxRegH]).flatMap
        (fun kv => kv.2.files) = [fxRegH, fxRegG] ∧
    fxRegF ∉ (plan_smart_chains fxPlanCfg1 noInfo [fxRegF, fxRegG, fxRegH]).flatMap
        (fun kv => kv.2.files) := by
  decide

/-- C10 witness: a concrete collision-free run (one hi-hat file, one
regular file, cap sixteen) satisfying every hypothesis of the theorem. -/
theorem C10_witness :
    (0 < fxPlanCfg16.max_samples_per_chain ∧
      [fxClosedA1, fxRegF].Nodup ∧
      create_combined_hihat_chains fxPlanCfg16
          (hihatClassified [fxClosedA1, fxRegF]) noInfo =
        hihatEmitted fxPlanCfg16 (hihatClassified [fxClosedA1, fxRegF]) noInfo ∧
      create_regular_chains fxPlanCfg16
          (regularClassified [fxClosedA1, fxRegF]) noInfo =
        regularEmitted fxPlanCfg16 (regularClassified [fxClosedA1, fxRegF]) noInfo ∧
      (∀ kv ∈ regularEmitted fxPlanCfg16 (regularClassified [fxClosedA1, fxRegF]) noInfo,
        lookupStr (hihatEmitted fxPlanCfg16
          (hihatClassified [fxClosedA1, fxRegF]) noInfo) kv.1 = none)) ∧
    (List.Perm
        ((plan_smart_chains fxPlanCfg16 noInfo [fxClosedA1, fxRegF]).flatMap
          (fun kv => kv.2.files)) [fxClosedA1, fxRegF] ∧
      ((plan_smart_chains fxPlanCfg16 noInfo [fxClosedA1, fxRegF]).flatMap
        (fun kv => kv.2.files)).Nodup) :=
  ⟨⟨by decide, by decide, by decide, by decide, by decide⟩,
    C10_theorem fxPlanCfg16 noInfo [fxClosedA1, fxRegF] (by decide) (by decide)
      (by decide) (by decide) (by decide)⟩
